import Mathlib

/-!
Verification of the mdto.py core (classes.py, helpers.py, utilities.py)
against its specification.

The Python package maps typed, nested metadata records ("MDTO dataclasses")
to and from a fixed XML grammar and validates them against that grammar.
The embedding below mirrors the dynamic (reflection-driven) style of the
source:

* `ClassName`, `FieldDesc`, `fieldsOf` — the thirteen dataclasses of
  classes.py, with each field descriptor recording the declared name, the
  expected element type (the first alternative of a `X | List[X]` union),
  the listability flag (whether the type hint is such a union) and whether
  the field has a default value (`= None`, which is what makes it optional).
* `PVal` — dynamically typed Python values as the source manipulates them:
  `None`, `str`, `int`, `list`, or a dataclass instance.  An instance
  carries its fields as a name-to-value list in declaration order, which is
  exactly how a Python dataclass instance stores and iterates them.  The
  list types `PList` and `PFields` are spelled out as mutual inductives so
  that every function below is structurally recursive and computable by the
  kernel.
* `Xml` — element trees as lxml exposes them to this code: a tag, optional
  text and a list of child elements.  Attributes occur only on the document
  root, which is modelled by the byte-level renderer.
* `validate`, `to_xml`, `from_xml`, `elem_to_mdto`, `save`, ... — direct
  translations of the corresponding functions of the source.
-/

/-- Names of the thirteen MDTO dataclasses defined in classes.py. -/
inductive ClassName where
  | IdentificatieGegevens
  | VerwijzingGegevens
  | BegripGegevens
  | TermijnGegevens
  | ChecksumGegevens
  | BeperkingGebruikGegevens
  | DekkingInTijdGegevens
  | EventGegevens
  | RaadpleeglocatieGegevens
  | GerelateerdInformatieobjectGegevens
  | BetrokkeneGegevens
  | Informatieobject
  | Bestand
deriving Repr, DecidableEq

/-- Python name of each dataclass, as used in validation error paths. -/
def pyClassName : ClassName → String
  | .IdentificatieGegevens => "IdentificatieGegevens"
  | .VerwijzingGegevens => "VerwijzingGegevens"
  | .BegripGegevens => "BegripGegevens"
  | .TermijnGegevens => "TermijnGegevens"
  | .ChecksumGegevens => "ChecksumGegevens"
  | .BeperkingGebruikGegevens => "BeperkingGebruikGegevens"
  | .DekkingInTijdGegevens => "DekkingInTijdGegevens"
  | .EventGegevens => "EventGegevens"
  | .RaadpleeglocatieGegevens => "RaadpleeglocatieGegevens"
  | .GerelateerdInformatieobjectGegevens => "GerelateerdInformatieobjectGegevens"
  | .BetrokkeneGegevens => "BetrokkeneGegevens"
  | .Informatieobject => "Informatieobject"
  | .Bestand => "Bestand"

/-- The expected element type of a field: `str`, `int`, or one of the MDTO
dataclasses.  For a union type hint `X | List[X]` this is the first
alternative `X` (`get_args(field_type)[0]` in `Serializable.validate`). -/
inductive FType where
  | str
  | int
  | cls (c : ClassName)
deriving Repr, DecidableEq

/-- Python name of an expected type, as interpolated into error messages. -/
def ftypeName : FType → String
  | .str => "str"
  | .int => "int"
  | .cls c => pyClassName c

/-- One dataclass field as `Serializable.validate` sees it through
`dataclasses.fields`: its name, its expected element type, whether the type
hint is a `X | List[X]` union (`get_origin(field_type) is Union`, so the
field accepts sequences), and whether the field was declared with a default
(`field.default is None`, making it optional). -/
structure FieldDesc where
  name : String
  ftype : FType
  listable : Bool
  hasDefault : Bool
deriving Repr, DecidableEq

/-- The dataclass fields of every MDTO class, in declaration order (for the
two `Object` subclasses the inherited `identificatie` and `naam` come first,
exactly as `dataclasses.fields` reports them). -/
def fieldsOf : ClassName → List FieldDesc
  | .IdentificatieGegevens =>
      [⟨"identificatieKenmerk", .str, false, false⟩,
       ⟨"identificatieBron", .str, false, false⟩]
  | .VerwijzingGegevens =>
      [⟨"verwijzingNaam", .str, false, false⟩,
       ⟨"verwijzingIdentificatie", .cls .IdentificatieGegevens, false, true⟩]
  | .BegripGegevens =>
      [⟨"begripLabel", .str, false, false⟩,
       ⟨"begripBegrippenlijst", .cls .VerwijzingGegevens, false, false⟩,
       ⟨"begripCode", .str, false, true⟩]
  | .TermijnGegevens =>
      [⟨"termijnTriggerStartLooptijd", .cls .BegripGegevens, false, true⟩,
       ⟨"termijnStartdatumLooptijd", .str, false, true⟩,
       ⟨"termijnLooptijd", .str, false, true⟩,
       ⟨"termijnEinddatum", .str, false, true⟩]
  | .ChecksumGegevens =>
      [⟨"checksumAlgoritme", .cls .BegripGegevens, false, false⟩,
       ⟨"checksumWaarde", .str, false, false⟩,
       ⟨"checksumDatum", .str, false, false⟩]
  | .BeperkingGebruikGegevens =>
      [⟨"beperkingGebruikType", .cls .BegripGegevens, false, false⟩,
       ⟨"beperkingGebruikNadereBeschrijving", .str, false, true⟩,
       ⟨"beperkingGebruikDocumentatie", .cls .VerwijzingGegevens, true, true⟩,
       ⟨"beperkingGebruikTermijn", .cls .TermijnGegevens, false, true⟩]
  | .DekkingInTijdGegevens =>
      [⟨"dekkingInTijdType", .cls .BegripGegevens, false, false⟩,
       ⟨"dekkingInTijdBegindatum", .str, false, false⟩,
       ⟨"dekkingInTijdEinddatum", .str, false, true⟩]
  | .EventGegevens =>
      [⟨"eventType", .cls .BegripGegevens, false, false⟩,
       ⟨"eventTijd", .str, false, true⟩,
       ⟨"eventVerantwoordelijkeActor", .cls .VerwijzingGegevens, false, true⟩,
       ⟨"eventResultaat", .str, false, true⟩]
  | .RaadpleeglocatieGegevens =>
      [⟨"raadpleeglocatieFysiek", .cls .VerwijzingGegevens, true, true⟩,
       ⟨"raadpleeglocatieOnline", .str, true, true⟩]
  | .GerelateerdInformatieobjectGegevens =>
      [⟨"gerelateerdInformatieobjectVerwijzing", .cls .VerwijzingGegevens, false, false⟩,
       ⟨"gerelateerdInformatieobjectTypeRelatie", .cls .BegripGegevens, false, false⟩]
  | .BetrokkeneGegevens =>
      [⟨"betrokkeneTypeRelatie", .cls .BegripGegevens, false, false⟩,
       ⟨"betrokkeneActor", .cls .VerwijzingGegevens, false, false⟩]
  | .Informatieobject =>
      [⟨"identificatie", .cls .IdentificatieGegevens, true, false⟩,
       ⟨"naam", .str, false, false⟩,
       ⟨"archiefvormer", .cls .VerwijzingGegevens, true, false⟩,
       ⟨"beperkingGebruik", .cls .BeperkingGebruikGegevens, true, false⟩,
       ⟨"waardering", .cls .BegripGegevens, false, false⟩,
       ⟨"aggregatieniveau", .cls .BegripGegevens, false, true⟩,
       ⟨"classificatie", .cls .BegripGegevens, true, true⟩,
       ⟨"trefwoord", .str, true, true⟩,
       ⟨"omschrijving", .str, true, true⟩,
       ⟨"raadpleeglocatie", .cls .RaadpleeglocatieGegevens, true, true⟩,
       ⟨"dekkingInTijd", .cls .DekkingInTijdGegevens, true, true⟩,
       ⟨"dekkingInRuimte", .cls .VerwijzingGegevens, true, true⟩,
       ⟨"taal", .str, true, true⟩,
       ⟨"event", .cls .EventGegevens, true, true⟩,
       ⟨"bewaartermijn", .cls .TermijnGegevens, false, true⟩,
       ⟨"informatiecategorie", .cls .BegripGegevens, false, true⟩,
       ⟨"isOnderdeelVan", .cls .VerwijzingGegevens, true, true⟩,
       ⟨"bevatOnderdeel", .cls .VerwijzingGegevens, true, true⟩,
       ⟨"heeftRepresentatie", .cls .VerwijzingGegevens, true, true⟩,
       ⟨"aanvullendeMetagegevens", .cls .VerwijzingGegevens, true, true⟩,
       ⟨"gerelateerdInformatieobject", .cls .GerelateerdInformatieobjectGegevens, true, true⟩,
       ⟨"betrokkene", .cls .BetrokkeneGegevens, true, true⟩,
       ⟨"activiteit", .cls .VerwijzingGegevens, true, true⟩]
  | .Bestand =>
      [⟨"identificatie", .cls .IdentificatieGegevens, true, false⟩,
       ⟨"naam", .str, false, false⟩,
       ⟨"omvang", .int, false, false⟩,
       ⟨"bestandsformaat", .cls .BegripGegevens, false, false⟩,
       ⟨"checksum", .cls .ChecksumGegevens, true, false⟩,
       ⟨"isRepresentatieVan", .cls .VerwijzingGegevens, false, false⟩,
       ⟨"URLBestand", .str, false, true⟩]

/-- Sorting key used by `Informatieobject._mdto_ordered_fields`: the
position of each field in the MDTO XSD (the `sorting_mapping` dictionary;
the wildcard arm is unreachable, every Informatieobject field is listed). -/
def sortingMapping : String → Nat
  | "identificatie" => 0
  | "naam" => 1
  | "aggregatieniveau" => 2
  | "classificatie" => 3
  | "trefwoord" => 4
  | "omschrijving" => 5
  | "raadpleeglocatie" => 6
  | "dekkingInTijd" => 7
  | "dekkingInRuimte" => 8
  | "taal" => 9
  | "event" => 10
  | "waardering" => 11
  | "bewaartermijn" => 12
  | "informatiecategorie" => 13
  | "isOnderdeelVan" => 14
  | "bevatOnderdeel" => 15
  | "heeftRepresentatie" => 16
  | "aanvullendeMetagegevens" => 17
  | "gerelateerdInformatieobject" => 18
  | "archiefvormer" => 19
  | "betrokkene" => 20
  | "activiteit" => 21
  | "beperkingGebruik" => 22
  | _ => 23

/-- Stable insertion used by `insSort`: a field is placed after every field
whose `sortingMapping` key is smaller or equal. -/
def insKeyed (fd : FieldDesc) : List FieldDesc → List FieldDesc
  | [] => [fd]
  | x :: xs =>
      if sortingMapping x.name ≤ sortingMapping fd.name then x :: insKeyed fd xs
      else fd :: x :: xs

/-- Stable sort by `sortingMapping` key, modelling Python `sorted` (the keys
of the Informatieobject fields are pairwise distinct, so stability is moot). -/
def insSort : List FieldDesc → List FieldDesc
  | [] => []
  | x :: xs => insKeyed x (insSort xs)

/-- The `_mdto_ordered_fields` resolver: dataclass fields in the order
required by the MDTO XSD.  The default returns declaration order.
`BegripGegevens` swaps its last two fields via `fields[:-2] + (fields[2],
fields[1])`, `Bestand` via `fields[:-2] + (fields[-1], fields[-2])`, and
`Informatieobject` sorts by the explicit `sorting_mapping` table. -/
def mdto_ordered_fields (c : ClassName) : List FieldDesc :=
  let f := fieldsOf c
  match c with
  | .BegripGegevens => f.take (f.length - 2) ++ ((f.drop 2).take 1 ++ (f.drop 1).take 1)
  | .Bestand =>
      f.take (f.length - 2) ++
        ((f.drop (f.length - 1)).take 1 ++ ((f.drop (f.length - 2)).take 1))
  | .Informatieobject => insSort f
  | _ => f

mutual

/-- Dynamically typed Python values, as the reflection-driven code of the
source manipulates them: `None`, strings, integers, lists and dataclass
instances.  An instance carries its class and its fields as a name-to-value
list; instances built by the source always carry exactly the declared
fields, in declaration order, as a Python dataclass instance does. -/
inductive PVal where
  | none
  | str (s : String)
  | int (n : Int)
  | list (items : PList)
  | obj (c : ClassName) (fields : PFields)
deriving Repr

/-- A Python list of values. -/
inductive PList where
  | nil
  | cons (v : PVal) (l : PList)
deriving Repr

/-- The fields of a dataclass instance: names with their values. -/
inductive PFields where
  | nil
  | cons (name : String) (v : PVal) (l : PFields)
deriving Repr

end

/-- View of a `PList` as an ordinary list. -/
def PList.toList : PList → List PVal
  | .nil => []
  | .cons v l => v :: l.toList

/-- Build a `PList` from an ordinary list. -/
def PList.ofList : List PVal → PList
  | [] => .nil
  | v :: l => .cons v (PList.ofList l)

/-- View of a `PFields` as an ordinary association list. -/
def PFields.toList : PFields → List (String × PVal)
  | .nil => []
  | .cons n v l => (n, v) :: l.toList

/-- Build a `PFields` from an ordinary association list. -/
def PFields.ofList : List (String × PVal) → PFields
  | [] => .nil
  | (n, v) :: l => .cons n v (PFields.ofList l)

/-- Name lookup in the fields of an instance (first match wins). -/
def PFields.lookupF : PFields → String → Option PVal
  | .nil, _ => Option.none
  | .cons m v l, n => if m = n then some v else l.lookupF n

/-- Attribute access `getattr(self, field_name)` on a dataclass instance.
Instances built by the source always carry every declared field, so the
`None` default is never reached on them. -/
def getattr (fields : PFields) (n : String) : PVal :=
  (fields.lookupF n).getD .none

/-- Python truthiness (`not field_value` in `Serializable.validate`):
`None`, `""`, `0` and `[]` are falsy; dataclass instances are always
truthy. -/
def truthy : PVal → Bool
  | .none => false
  | .str s => s ≠ ""
  | .int n => n ≠ 0
  | .list .nil => false
  | .list (.cons _ _) => true
  | .obj _ _ => true

/-- The `isinstance(value, expected_type)` check of `Serializable.validate`
for non-sequence values.  Lists are handled separately by the caller, and no
field of the model expects the common base class, so nominal equality of the
class name is exact. -/
def isInst : PVal → FType → Bool
  | .str _, .str => true
  | .int _, .int => true
  | .obj c _, .cls c2 => c = c2
  | _, _ => false

/-- Python `str()` of the values that reach string interpolation in the
source: used for primitive element text and in error messages.  The repr of
list elements is not modelled character by character (no claim depends on
it). -/
def pyStr : PVal → String
  | .none => "None"
  | .str s => s
  | .int n => toString n
  | .list _ => "[...]"
  | .obj c _ => pyClassName c

/-- Python `type(value).__name__`, as interpolated into type error
messages. -/
def pyTypeName : PVal → String
  | .none => "NoneType"
  | .str _ => "str"
  | .int _ => "int"
  | .list _ => "list"
  | .obj c _ => pyClassName c

example : (fieldsOf .BegripGegevens).length = 3 := by decide
example : (mdto_ordered_fields .BegripGegevens).map FieldDesc.name =
    ["begripLabel", "begripCode", "begripBegrippenlijst"] := by decide
example : (mdto_ordered_fields .Bestand).map FieldDesc.name =
    ["identificatie", "naam", "omvang", "bestandsformaat", "checksum",
     "URLBestand", "isRepresentatieVan"] := by decide
example : (mdto_ordered_fields .Informatieobject).map FieldDesc.name =
    ["identificatie", "naam", "aggregatieniveau", "classificatie", "trefwoord",
     "omschrijving", "raadpleeglocatie", "dekkingInTijd", "dekkingInRuimte",
     "taal", "event", "waardering", "bewaartermijn", "informatiecategorie",
     "isOnderdeelVan", "bevatOnderdeel", "heeftRepresentatie",
     "aanvullendeMetagegevens", "gerelateerdInformatieobject", "archiefvormer",
     "betrokkene", "activiteit", "beperkingGebruik"] := by decide

/-- Check a predicate on every element of a Python list (`all(...)`). -/
def PList.allP : PList → (PVal → Bool) → Bool
  | .nil, _ => true
  | .cons v l, p => p v && l.allP p

/-- A `ValidationError` of classes.py: a field path and a message. -/
structure VErr where
  path : List String
  msg : String
deriving Repr, DecidableEq

/-- The message of the list-item type error of `Serializable.validate`.  The
source joins `set(type(i).__name__ for i in field_value)`; a Python set
iterates in an unspecified order, modelled here as first-occurrence order. -/
def listItemsMsg (expected : FType) (items : PList) : String :=
  "list items must be " ++ ftypeName expected ++ ", but found " ++
    String.intercalate ", "
      (items.toList.foldl
        (fun acc i => if acc.contains (pyTypeName i) then acc
                      else acc ++ [pyTypeName i]) [])

/-- Translation of `helpers.validate_url_or_urls`, parametric in the external
library predicate `validators.url` (written `iU`).  `None` passes (URLs are
never mandatory in MDTO); a string is listified and each element checked; on
a list each element is checked (`validators.url` of a non-string returns a
falsy failure object).  Values of other shapes are not iterable in Python
and never reach this function from structurally valid instances; they are
mapped to `true`. -/
def validate_url_or_urls (iU : String → Bool) : PVal → Bool
  | .none => true
  | .str s => iU s
  | .list items => items.allP (fun u => match u with | .str s => iU s | _ => false)
  | _ => true

/-- The validate overrides of `RaadpleeglocatieGegevens` and `Bestand`: after
`super().validate()` succeeds they check the designated URL field and raise
a `ValidationError` with a hard-coded path on failure.  The other overrides
(`VerwijzingGegevens`, `Object`) only log a warning about long names, which
has no effect on the raised result and is not modelled. -/
def postValidate (iU : String → Bool) (c : ClassName) (fields : PFields) :
    Except VErr Unit :=
  match c with
  | .RaadpleeglocatieGegevens =>
      if validate_url_or_urls iU (getattr fields "raadpleeglocatieOnline") then .ok ()
      else .error ⟨["informatieobject", "raadpleeglocatie",
                    "RaadpleeglocatieGegevens", "raadpleeglocatieOnline"],
                   "url " ++ pyStr (getattr fields "raadpleeglocatieOnline") ++
                     " is malformed"⟩
  | .Bestand =>
      if validate_url_or_urls iU (getattr fields "URLBestand") then .ok ()
      else .error ⟨["bestand", "URLBestand"],
                   "url " ++ pyStr (getattr fields "URLBestand") ++ " is malformed"⟩
  | _ => .ok ()

mutual

/-- Dispatcher for the dynamic `value.validate()` call: runs the base
`Serializable.validate` field loop and then the subclass override checks
(`postValidate`).  Non-instances are never targets of a `validate()` call. -/
def validate (iU : String → Bool) : PVal → Except VErr Unit
  | .obj c fields =>
      match validateFieldsGo iU c fields with
      | .error e => .error e
      | .ok _ => postValidate iU c fields
  | _ => .ok ()

/-- The `for field in dataclasses.fields(self)` loop of
`Serializable.validate`.  A dataclass instance stores exactly the declared
fields in declaration order, so the loop is rendered as a walk over the
instance fields, fetching each static descriptor by name and running
`validateField` on it; the first failure is raised.  The descriptor-missing
arm is unreachable on dataclass instances, which carry exactly the declared
fields. -/
def validateFieldsGo (iU : String → Bool) (c : ClassName) :
    PFields → Except VErr Unit
  | .nil => .ok ()
  | .cons n v rest =>
      match (fieldsOf c).find? (fun fd => fd.name == n) with
      | Option.none => validateFieldsGo iU c rest
      | some fd =>
          match validateField iU c fd v with
          | .error e => .error e
          | .ok _ => validateFieldsGo iU c rest

/-- The body of the `Serializable.validate` loop for one field: skip
optional empty fields, reject mandatory empty fields with "mandatory field
cannot be empty or None", reject sequences on non-listable fields, check
sequence items by `isinstance` only, check scalars by `isinstance`, and
recursively validate scalar instance values, prefixing the class and field
name to the path of any inner error (`raise ... from None`).  The dynamic
dispatch `field_value.validate()` is spelled out inline here (field walk
then `postValidate`); `validateField_obj` below restates it as a call to
`validate`. -/
def validateField (iU : String → Bool) (c : ClassName) (fd : FieldDesc)
    (v : PVal) : Except VErr Unit :=
  if fd.hasDefault && !truthy v then .ok ()
  else if !fd.hasDefault && !truthy v then
    .error ⟨[pyClassName c, fd.name], "mandatory field cannot be empty or None"⟩
  else
    match v with
    | .list items =>
        if !fd.listable then
          .error ⟨[pyClassName c, fd.name],
                  "got type list, but field does not accept sequences"⟩
        else if !(items.allP (fun i => isInst i fd.ftype)) then
          .error ⟨[pyClassName c, fd.name], listItemsMsg fd.ftype items⟩
        else .ok ()
    | .obj c2 f2 =>
        if !isInst (.obj c2 f2) fd.ftype then
          .error ⟨[pyClassName c, fd.name],
                  "expected type " ++ ftypeName fd.ftype ++ ", got " ++
                    pyClassName c2⟩
        else
          match (match validateFieldsGo iU c2 f2 with
                 | .error e => .error e
                 | .ok _ => postValidate iU c2 f2 : Except VErr Unit) with
          | .error deeper => .error ⟨[pyClassName c, fd.name] ++ deeper.path, deeper.msg⟩
          | .ok _ => .ok ()
    | w =>
        if !isInst w fd.ftype then
          .error ⟨[pyClassName c, fd.name],
                  "expected type " ++ ftypeName fd.ftype ++ ", got " ++ pyTypeName w⟩
        else .ok ()

end

/-- On a scalar instance value that passes the `isinstance` check, the field
check is exactly the recursive `field_value.validate()` call with the class
and field name prefixed to the path of any inner error. -/
theorem validateField_obj (iU : String → Bool) (c : ClassName) (fd : FieldDesc)
    (c2 : ClassName) (f2 : PFields) :
    validateField iU c fd (.obj c2 f2) =
      (if !isInst (.obj c2 f2) fd.ftype then
        .error ⟨[pyClassName c, fd.name],
                "expected type " ++ ftypeName fd.ftype ++ ", got " ++ pyClassName c2⟩
      else
        match validate iU (.obj c2 f2) with
        | .error deeper => .error ⟨[pyClassName c, fd.name] ++ deeper.path, deeper.msg⟩
        | .ok _ => .ok ()) := by
  rw [validateField, validate]
  simp [truthy]

example :
    validate (fun _ => true)
      (.obj .VerwijzingGegevens
        (.cons "verwijzingNaam" (.str "")
          (.cons "verwijzingIdentificatie" .none .nil))) =
    .error ⟨["VerwijzingGegevens", "verwijzingNaam"],
            "mandatory field cannot be empty or None"⟩ := rfl

example :
    validate (fun _ => true)
      (.obj .BegripGegevens
        (.cons "begripLabel" (.str "L")
          (.cons "begripBegrippenlijst"
            (.obj .VerwijzingGegevens
              (.cons "verwijzingNaam" (.str "N")
                (.cons "verwijzingIdentificatie" .none .nil)))
            (.cons "begripCode" .none .nil)))) = .ok () := rfl

example :
    validate (fun s => s = "https://x.example")
      (.obj .RaadpleeglocatieGegevens
        (.cons "raadpleeglocatieFysiek" .none
          (.cons "raadpleeglocatieOnline" (.str "notaurl") .nil))) =
    .error ⟨["informatieobject", "raadpleeglocatie",
             "RaadpleeglocatieGegevens", "raadpleeglocatieOnline"],
            "url notaurl is malformed"⟩ := rfl

theorem validateField_path_ne_nil {iU : String → Bool} {c : ClassName}
    {fd : FieldDesc} {v : PVal} {e : VErr}
    (h : validateField iU c fd v = .error e) : e.path ≠ [] := by
  rcases v with _ | s | n | items | ⟨c2, f2⟩ <;> rw [validateField] at h <;>
    repeat' split at h
  all_goals simp_all
  all_goals (cases h; simp)

theorem postValidate_path_ne_nil {iU : String → Bool} {c : ClassName}
    {fields : PFields} {e : VErr}
    (h : postValidate iU c fields = .error e) : e.path ≠ [] := by
  cases c <;> rw [postValidate] at h <;> repeat' split at h
  all_goals simp_all
  all_goals (cases h; simp)

theorem validateFieldsGo_path_ne_nil {iU : String → Bool} {c : ClassName} :
    ∀ {fields : PFields} {e : VErr},
      validateFieldsGo iU c fields = .error e → e.path ≠ []
  | .nil, e, h => by rw [validateFieldsGo] at h; cases h
  | .cons n v rest, e, h => by
      rw [validateFieldsGo] at h
      split at h
      · exact validateFieldsGo_path_ne_nil h
      · split at h
        · cases h
          exact validateField_path_ne_nil (by assumption)
        · exact validateFieldsGo_path_ne_nil h

theorem validate_path_ne_nil {iU : String → Bool} {v : PVal} {e : VErr}
    (h : validate iU v = .error e) : e.path ≠ [] := by
  cases v <;> rw [validate] at h
  case obj c fields =>
    split at h
    · cases h; exact validateFieldsGo_path_ne_nil (by assumption)
    · exact postValidate_path_ne_nil h
  all_goals cases h

theorem mandatoryMsg_ne_expected (a b : String) :
    "expected type " ++ a ++ ", got " ++ b ≠
      "mandatory field cannot be empty or None" := by
  intro h
  have h2 := congrArg String.data h
  simp [String.data_append] at h2

theorem mandatoryMsg_ne_listItems (t : FType) (items : PList) :
    listItemsMsg t items ≠ "mandatory field cannot be empty or None" := by
  intro h
  rw [listItemsMsg] at h
  have h2 := congrArg String.data h
  simp [String.data_append] at h2

theorem error_ne_of_msg_ne {p q : List String} {m m2 : String} (hm : m ≠ m2) :
    (Except.error ⟨p, m⟩ : Except VErr Unit) ≠ .error ⟨q, m2⟩ := by
  intro h
  simp only [Except.error.injEq, VErr.mk.injEq] at h
  exact hm h.2

theorem validateField_truthy_ne_mandatory {iU : String → Bool} {c : ClassName}
    {fd : FieldDesc} {v : PVal} (ht : truthy v = true) :
    validateField iU c fd v ≠
      .error ⟨[pyClassName c, fd.name], "mandatory field cannot be empty or None"⟩ := by
  rcases v with _ | s | n | items | ⟨c2, f2⟩
  case none => simp [truthy] at ht
  case obj =>
    rw [validateField_obj]
    split
    · exact error_ne_of_msg_ne (mandatoryMsg_ne_expected _ _)
    · cases hval : validate iU (.obj c2 f2) with
      | ok u => simp
      | error deeper =>
          intro h
          have h2 : (Except.error ⟨[pyClassName c, fd.name] ++ deeper.path, deeper.msg⟩ :
              Except VErr Unit) =
            .error ⟨[pyClassName c, fd.name],
                    "mandatory field cannot be empty or None"⟩ := h
          simp only [Except.error.injEq, VErr.mk.injEq] at h2
          have hp : deeper.path = [] := by simpa using h2.1
          exact validate_path_ne_nil hval hp
  case str =>
    rw [validateField]
    simp only [ht, Bool.not_true, Bool.and_false, Bool.false_eq_true, if_false]
    split
    · exact error_ne_of_msg_ne (mandatoryMsg_ne_expected _ _)
    · simp
    all_goals (intros; simp_all)
  case int =>
    rw [validateField]
    simp only [ht, Bool.not_true, Bool.and_false, Bool.false_eq_true, if_false]
    split
    · exact error_ne_of_msg_ne (mandatoryMsg_ne_expected _ _)
    · simp
    all_goals (intros; simp_all)
  case list =>
    rw [validateField]
    simp only [ht, Bool.not_true, Bool.and_false, Bool.false_eq_true, if_false]
    split
    · exact error_ne_of_msg_ne (by decide)
    · split
      · exact error_ne_of_msg_ne (mandatoryMsg_ne_listItems _ _)
      · simp

/-- Claim C3: for every entity instance, `validate()` skips a field whose
descriptor is optional (has a default) and whose value is absent or empty,
and raises a `ValidationError` whose path names the type and field and whose
message is "mandatory field cannot be empty or None" (which extends the
wording quoted in the specification, witnessed by the last conjunct) exactly
when a field without a default is absent or empty. -/
theorem C3_validate_mandatory (iU : String → Bool) (c : ClassName)
    (fd : FieldDesc) (v : PVal) :
    (fd.hasDefault = true → truthy v = false → validateField iU c fd v = .ok ()) ∧
    (validateField iU c fd v =
        .error ⟨[pyClassName c, fd.name], "mandatory field cannot be empty or None"⟩ ↔
      fd.hasDefault = false ∧ truthy v = false) ∧
    (∃ t, "mandatory field cannot be empty" ++ t =
        "mandatory field cannot be empty or None") := by
  refine ⟨?_, ⟨?_, ?_⟩, ⟨" or None", rfl⟩⟩
  · intro hd ht
    rw [validateField.eq_def, hd, ht]
    rfl
  · intro h
    by_cases ht : truthy v
    · exact absurd h (validateField_truthy_ne_mandatory ht)
    · simp only [Bool.not_eq_true] at ht
      by_cases hd : fd.hasDefault
      · rw [validateField.eq_def, hd, ht] at h
        exact absurd h (fun hh => Except.noConfusion hh)
      · simp only [Bool.not_eq_true] at hd
        exact ⟨hd, ht⟩
  · rintro ⟨hd, ht⟩
    rw [validateField.eq_def, hd, ht]
    rfl

/-- Witness for C3 at a concrete input: the optional `begripCode` field of
the concept data-group holds `None` and is skipped, while the mandatory
`begripLabel` field holding the empty string is rejected with the mandatory
message. -/
theorem C3_validate_mandatory_witness :
    validateField (fun _ => true) .BegripGegevens
      ⟨"begripCode", .str, false, true⟩ .none = .ok () ∧
    validateField (fun _ => true) .BegripGegevens
      ⟨"begripLabel", .str, false, false⟩ (.str "") =
      .error ⟨["BegripGegevens", "begripLabel"],
              "mandatory field cannot be empty or None"⟩ :=
  ⟨(C3_validate_mandatory (fun _ => true) .BegripGegevens
      ⟨"begripCode", .str, false, true⟩ .none).1 rfl rfl,
   (C3_validate_mandatory (fun _ => true) .BegripGegevens
      ⟨"begripLabel", .str, false, false⟩ (.str "")).2.1.mpr ⟨rfl, rfl⟩⟩

/-- Counterexample to claim C4 as stated: an invalid entity instance (a
reference whose mandatory `verwijzingNaam` is empty) fails validation on its
own, yet an instance holding it inside a sequence-valued field
(`beperkingGebruikDocumentatie`) validates successfully — sequence items are
only `isinstance`-checked, never recursively validated. -/
theorem C4_counterexample :
    validate (fun _ => true)
      (.obj .VerwijzingGegevens
        (.cons "verwijzingNaam" (.str "")
          (.cons "verwijzingIdentificatie" .none .nil))) =
      .error ⟨["VerwijzingGegevens", "verwijzingNaam"],
              "mandatory field cannot be empty or None"⟩ ∧
    validate (fun _ => true)
      (.obj .BeperkingGebruikGegevens
        (.cons "beperkingGebruikType"
          (.obj .BegripGegevens
            (.cons "begripLabel" (.str "nvt")
              (.cons "begripBegrippenlijst"
                (.obj .VerwijzingGegevens
                  (.cons "verwijzingNaam" (.str "geen")
                    (.cons "verwijzingIdentificatie" .none .nil)))
                (.cons "begripCode" .none .nil))))
          (.cons "beperkingGebruikNadereBeschrijving" .none
            (.cons "beperkingGebruikDocumentatie"
              (.list (.cons
                (.obj .VerwijzingGegevens
                  (.cons "verwijzingNaam" (.str "")
                    (.cons "verwijzingIdentificatie" .none .nil)))
                .nil))
              (.cons "beperkingGebruikTermijn" .none .nil))))) = .ok () :=
  ⟨rfl, rfl⟩

/-- Claim C4, amended: whenever a field holds a scalar entity instance that
passes the `isinstance` check, `validate()` recursively validates it and on
failure re-raises a `ValidationError` whose path is the inner path prefixed
with the current type and field name; items of sequence-valued fields,
however, are only `isinstance`-checked and are not recursively validated,
whatever their own validity. -/
theorem C4_validate_recursion (iU : String → Bool) (c : ClassName)
    (fd : FieldDesc) (c2 : ClassName) (f2 : PFields) (e : VErr)
    (hinst : isInst (.obj c2 f2) fd.ftype = true)
    (hval : validate iU (.obj c2 f2) = .error e) :
    validateField iU c fd (.obj c2 f2) =
      .error ⟨[pyClassName c, fd.name] ++ e.path, e.msg⟩ ∧
    ∀ (items : PList), truthy (.list items) = true → fd.listable = true →
      items.allP (fun i => isInst i fd.ftype) = true →
      validateField iU c fd (.list items) = .ok () := by
  constructor
  · rw [validateField_obj, hinst]
    simp only [Bool.not_true, Bool.false_eq_true, if_false]
    rw [hval]
  · intro items hti hl hall
    rw [validateField.eq_def, hti, hl]
    simp [hall]

/-- Witness for C4 at a concrete input: the recursion through a scalar
concept field produces a path that walks through every ancestor
(`BegripGegevens.begripBegrippenlijst.VerwijzingGegevens.verwijzingNaam`),
and a well-typed but internally invalid list item is accepted. -/
theorem C4_validate_recursion_witness :
    validateField (fun _ => true) .BegripGegevens
      ⟨"begripBegrippenlijst", .cls .VerwijzingGegevens, false, false⟩
      (.obj .VerwijzingGegevens
        (.cons "verwijzingNaam" (.str "")
          (.cons "verwijzingIdentificatie" .none .nil))) =
      .error ⟨["BegripGegevens", "begripBegrippenlijst",
               "VerwijzingGegevens", "verwijzingNaam"],
              "mandatory field cannot be empty or None"⟩ ∧
    validateField (fun _ => true) .BeperkingGebruikGegevens
      ⟨"beperkingGebruikDocumentatie", .cls .VerwijzingGegevens, true, true⟩
      (.list (.cons
        (.obj .VerwijzingGegevens
          (.cons "verwijzingNaam" (.str "")
            (.cons "verwijzingIdentificatie" .none .nil)))
        .nil)) = .ok () :=
  ⟨(C4_validate_recursion (fun _ => true) .BegripGegevens
      ⟨"begripBegrippenlijst", .cls .VerwijzingGegevens, false, false⟩
      .VerwijzingGegevens
      (.cons "verwijzingNaam" (.str "")
        (.cons "verwijzingIdentificatie" .none .nil))
      ⟨["VerwijzingGegevens", "verwijzingNaam"],
       "mandatory field cannot be empty or None"⟩ rfl rfl).1,
   (C4_validate_recursion (fun _ => true) .BeperkingGebruikGegevens
      ⟨"beperkingGebruikDocumentatie", .cls .VerwijzingGegevens, true, true⟩
      .VerwijzingGegevens
      (.cons "verwijzingNaam" (.str "")
        (.cons "verwijzingIdentificatie" .none .nil))
      ⟨["VerwijzingGegevens", "verwijzingNaam"],
       "mandatory field cannot be empty or None"⟩ rfl rfl).2
     _ rfl rfl rfl⟩

/-- Claim C6: for instances of the two classes with a designated URL field,
once the base structural walk succeeds, `validate()` succeeds exactly when
`validate_url_or_urls` accepts the field value, and otherwise raises the
hard-coded path-qualified `ValidationError` of the override; the last three
conjuncts spell out the predicate: absent (`None`) passes, a string must
satisfy the URL predicate, and a list must consist of strings that all
satisfy it. -/
theorem C6_validate_url_fields (iU : String → Bool) (fR fB : PFields)
    (hR : validateFieldsGo iU .RaadpleeglocatieGegevens fR = .ok ())
    (hB : validateFieldsGo iU .Bestand fB = .ok ()) :
    (validate iU (.obj .RaadpleeglocatieGegevens fR) = .ok () ↔
      validate_url_or_urls iU (getattr fR "raadpleeglocatieOnline") = true) ∧
    (validate_url_or_urls iU (getattr fR "raadpleeglocatieOnline") = false →
      validate iU (.obj .RaadpleeglocatieGegevens fR) =
        .error ⟨["informatieobject", "raadpleeglocatie",
                 "RaadpleeglocatieGegevens", "raadpleeglocatieOnline"],
                "url " ++ pyStr (getattr fR "raadpleeglocatieOnline") ++
                  " is malformed"⟩) ∧
    (validate iU (.obj .Bestand fB) = .ok () ↔
      validate_url_or_urls iU (getattr fB "URLBestand") = true) ∧
    (validate_url_or_urls iU (getattr fB "URLBestand") = false →
      validate iU (.obj .Bestand fB) =
        .error ⟨["bestand", "URLBestand"],
                "url " ++ pyStr (getattr fB "URLBestand") ++ " is malformed"⟩) ∧
    validate_url_or_urls iU PVal.none = true ∧
    (∀ s, validate_url_or_urls iU (.str s) = iU s) ∧
    (∀ items, validate_url_or_urls iU (.list items) =
      items.allP (fun u => match u with | .str s => iU s | _ => false)) := by
  have h1 : validate iU (.obj .RaadpleeglocatieGegevens fR) =
      postValidate iU .RaadpleeglocatieGegevens fR := by rw [validate, hR]
  have h2 : validate iU (.obj .Bestand fB) =
      postValidate iU .Bestand fB := by rw [validate, hB]
  refine ⟨?_, ?_, ?_, ?_, rfl, fun s => rfl, fun items => rfl⟩
  · rw [h1, postValidate]
    cases hu : validate_url_or_urls iU (getattr fR "raadpleeglocatieOnline") <;>
      simp [hu]
  · intro hu
    rw [h1, postValidate, hu]
    simp
  · rw [h2, postValidate]
    cases hu : validate_url_or_urls iU (getattr fB "URLBestand") <;> simp [hu]
  · intro hu
    rw [h2, postValidate, hu]
    simp

/-- Witness for C6 at concrete inputs: with a URL predicate accepting only
one concrete address, a `RaadpleeglocatieGegevens` whose online location is
the string "notaurl" fails with the hard-coded path, while a `Bestand`
record with an absent `URLBestand` passes the URL check. -/
theorem C6_validate_url_fields_witness :
    validate (fun s => s == "https://example.com/x")
      (.obj .RaadpleeglocatieGegevens
        (.cons "raadpleeglocatieFysiek" .none
          (.cons "raadpleeglocatieOnline" (.str "notaurl") .nil))) =
      .error ⟨["informatieobject", "raadpleeglocatie",
               "RaadpleeglocatieGegevens", "raadpleeglocatieOnline"],
              "url notaurl is malformed"⟩ ∧
    validate (fun s => s == "https://example.com/x")
      (.obj .Bestand
        (.cons "identificatie"
          (.obj .IdentificatieGegevens
            (.cons "identificatieKenmerk" (.str "k")
              (.cons "identificatieBron" (.str "b") .nil)))
          (.cons "naam" (.str "f.png")
            (.cons "omvang" (.int 7)
              (.cons "bestandsformaat"
                (.obj .BegripGegevens
                  (.cons "begripLabel" (.str "PNG")
                    (.cons "begripBegrippenlijst"
                      (.obj .VerwijzingGegevens
                        (.cons "verwijzingNaam" (.str "PRONOM-register")
                          (.cons "verwijzingIdentificatie" .none .nil)))
                      (.cons "begripCode" (.str "fmt/11") .nil))))
                (.cons "checksum"
                  (.obj .ChecksumGegevens
                    (.cons "checksumAlgoritme"
                      (.obj .BegripGegevens
                        (.cons "begripLabel" (.str "SHA-256")
                          (.cons "begripBegrippenlijst"
                            (.obj .VerwijzingGegevens
                              (.cons "verwijzingNaam" (.str "lijst")
                                (.cons "verwijzingIdentificatie" .none .nil)))
                            (.cons "begripCode" .none .nil))))
                      (.cons "checksumWaarde" (.str "abc123")
                        (.cons "checksumDatum" (.str "2024-01-01T00:00:00") .nil))))
                  (.cons "isRepresentatieVan"
                    (.obj .VerwijzingGegevens
                      (.cons "verwijzingNaam" (.str "obj")
                        (.cons "verwijzingIdentificatie" .none .nil)))
                    (.cons "URLBestand" .none .nil)))))))) = .ok () :=
  ⟨(C6_validate_url_fields (fun s => s == "https://example.com/x")
      (.cons "raadpleeglocatieFysiek" .none
        (.cons "raadpleeglocatieOnline" (.str "notaurl") .nil))
      .nil rfl rfl).2.1 rfl,
   (C6_validate_url_fields (fun s => s == "https://example.com/x")
      .nil
      (.cons "identificatie"
        (.obj .IdentificatieGegevens
          (.cons "identificatieKenmerk" (.str "k")
            (.cons "identificatieBron" (.str "b") .nil)))
        (.cons "naam" (.str "f.png")
          (.cons "omvang" (.int 7)
            (.cons "bestandsformaat"
              (.obj .BegripGegevens
                (.cons "begripLabel" (.str "PNG")
                  (.cons "begripBegrippenlijst"
                    (.obj .VerwijzingGegevens
                      (.cons "verwijzingNaam" (.str "PRONOM-register")
                        (.cons "verwijzingIdentificatie" .none .nil)))
                    (.cons "begripCode" (.str "fmt/11") .nil))))
              (.cons "checksum"
                (.obj .ChecksumGegevens
                  (.cons "checksumAlgoritme"
                    (.obj .BegripGegevens
                      (.cons "begripLabel" (.str "SHA-256")
                        (.cons "begripBegrippenlijst"
                          (.obj .VerwijzingGegevens
                            (.cons "verwijzingNaam" (.str "lijst")
                              (.cons "verwijzingIdentificatie" .none .nil)))
                          (.cons "begripCode" .none .nil))))
                    (.cons "checksumWaarde" (.str "abc123")
                      (.cons "checksumDatum" (.str "2024-01-01T00:00:00") .nil))))
                (.cons "isRepresentatieVan"
                  (.obj .VerwijzingGegevens
                    (.cons "verwijzingNaam" (.str "obj")
                      (.cons "verwijzingIdentificatie" .none .nil)))
                  (.cons "URLBestand" .none .nil)))))))
      rfl rfl).2.2.1.mpr rfl⟩

/-- Claim C10: a `Bestand` instance whose earlier fields (`identificatie`,
`naam`) pass their checks but whose mandatory `omvang` holds the integer 0
fails validation with the "mandatory field cannot be empty or None" error at
path `Bestand.omvang`, because emptiness is decided by Python truthiness:
the final conjuncts record that `0`, `""` and `[]` are all falsy. -/
theorem C10_bestand_omvang_zero (iU : String → Bool)
    (vid vnaam vbest vchk vrepr vurl : PVal)
    (hid : validateField iU .Bestand
      ⟨"identificatie", .cls .IdentificatieGegevens, true, false⟩ vid = .ok ())
    (hnaam : validateField iU .Bestand
      ⟨"naam", .str, false, false⟩ vnaam = .ok ()) :
    validate iU (.obj .Bestand
      (.cons "identificatie" vid
        (.cons "naam" vnaam
          (.cons "omvang" (.int 0)
            (.cons "bestandsformaat" vbest
              (.cons "checksum" vchk
                (.cons "isRepresentatieVan" vrepr
                  (.cons "URLBestand" vurl .nil)))))))) =
      .error ⟨["Bestand", "omvang"], "mandatory field cannot be empty or None"⟩ ∧
    truthy (.int 0) = false ∧ truthy (.str "") = false ∧
    truthy (.list .nil) = false := by
  refine ⟨?_, rfl, rfl, rfl⟩
  rw [validate, validateFieldsGo]
  simp only [show (fieldsOf .Bestand).find? (fun fd => fd.name == "identificatie") =
      some ⟨"identificatie", .cls .IdentificatieGegevens, true, false⟩ from rfl, hid]
  rw [validateFieldsGo]
  simp only [show (fieldsOf .Bestand).find? (fun fd => fd.name == "naam") =
      some ⟨"naam", .str, false, false⟩ from rfl, hnaam]
  rw [validateFieldsGo]
  simp only [show (fieldsOf .Bestand).find? (fun fd => fd.name == "omvang") =
      some ⟨"omvang", .int, false, false⟩ from rfl]
  rfl

/-- Witness for C10 at a concrete input: a file record named "f.pdf" with a
valid identification and a size of 0 bytes is rejected as an empty mandatory
field. -/
theorem C10_bestand_omvang_zero_witness :
    validate (fun _ => true) (.obj .Bestand
      (.cons "identificatie"
        (.obj .IdentificatieGegevens
          (.cons "identificatieKenmerk" (.str "k")
            (.cons "identificatieBron" (.str "b") .nil)))
        (.cons "naam" (.str "f.pdf")
          (.cons "omvang" (.int 0)
            (.cons "bestandsformaat" .none
              (.cons "checksum" .none
                (.cons "isRepresentatieVan" .none
                  (.cons "URLBestand" .none .nil)))))))) =
      .error ⟨["Bestand", "omvang"], "mandatory field cannot be empty or None"⟩ :=
  (C10_bestand_omvang_zero (fun _ => true)
    (.obj .IdentificatieGegevens
      (.cons "identificatieKenmerk" (.str "k")
        (.cons "identificatieBron" (.str "b") .nil)))
    (.str "f.pdf") .none .none .none .none rfl rfl).1

mutual

/-- An element tree as lxml exposes it to this code: tag, optional text,
child elements.  Namespace-qualified tags are carried in lxml's
`{namespace}tag` form.  Attributes occur only on the document root, which
the byte-level renderer handles separately. -/
inductive Xml where
  | elem (tag : String) (text : Option String) (children : XmlList)
deriving Repr

/-- A list of sibling elements. -/
inductive XmlList where
  | nil
  | cons (x : Xml) (l : XmlList)
deriving Repr

end

/-- Tag of an element. -/
def Xml.tag : Xml → String
  | .elem t _ _ => t

/-- Text of an element (`node.text`; `None` when the element has element
content or is empty). -/
def Xml.text : Xml → Option String
  | .elem _ x _ => x

/-- Children of an element. -/
def Xml.children : Xml → XmlList
  | .elem _ _ cs => cs

/-- Concatenation of sibling lists. -/
def XmlList.append : XmlList → XmlList → XmlList
  | .nil, ys => ys
  | .cons x l, ys => .cons x (l.append ys)

/-- View of a sibling list as an ordinary list. -/
def XmlList.toList : XmlList → List Xml
  | .nil => []
  | .cons x l => x :: l.toList

/-- Build a sibling list from an ordinary list. -/
def XmlList.ofList : List Xml → XmlList
  | [] => .nil
  | x :: l => .cons x (XmlList.ofList l)

/-- The tags of a sibling list, in order. -/
def XmlList.tags : XmlList → List String
  | .nil => []
  | .cons x l => x.tag :: l.tags

/-- Number of children (`len(node)`). -/
def XmlList.length : XmlList → Nat
  | .nil => 0
  | .cons _ l => l.length + 1

/-- Concatenate per-field chunks in the wire order chosen by the
`_mdto_ordered_fields` resolver (the `for field in fields` loop of
`Serializable.to_xml`). -/
def arrangeFields (c : ClassName) (chunks : List (String × XmlList)) : XmlList :=
  (mdto_ordered_fields c).foldr
    (fun fd acc => XmlList.append ((chunks.lookup fd.name).getD .nil) acc) .nil

mutual

/-- Translation of `Serializable.to_xml`: build an element with the given
root tag whose children are the serialized fields in resolver wire order.
The source loops over `self._mdto_ordered_fields()` and appends
`_process_dataclass_field(root, field.name, getattr(self, field.name))` for
each; since each field's output depends only on its name and value, the
model serializes every instance field once (`fieldChunks`) and concatenates
the chunks in resolver order (`arrangeFields`); `to_xml_fields` below
restates the result in the source's loop shape.  `to_xml` is only ever
called on dataclass instances. -/
def to_xml : PVal → String → Xml
  | .obj c fields, root => .elem root Option.none (arrangeFields c (fieldChunks fields))
  | _, root => .elem root Option.none .nil

/-- Serialize every field of an instance, keyed by field name. -/
def fieldChunks : PFields → List (String × XmlList)
  | .nil => []
  | .cons n v rest => (n, process_dataclass_field v n) :: fieldChunks rest

/-- Translation of `Serializable._process_dataclass_field`: `None` fields
are omitted; sequences serialize item-wise; a nested instance serializes by
a recursive `to_xml` call with the field name as tag (inlined here, see
`process_obj`); a primitive becomes one element whose text is `str(value)`.
The source tests `None` / sequence / `Serializable` / fallback in an
if-chain; the explicit constructor enumeration below is the same case
distinction. -/
def process_dataclass_field : PVal → String → XmlList
  | .none, _ => .nil
  | .str s, name => .cons (.elem name (some s) .nil) .nil
  | .int n, name => .cons (.elem name (some (toString n)) .nil) .nil
  | .list items, name => encodeItems items name
  | .obj c2 f2, name =>
      .cons (.elem name Option.none (arrangeFields c2 (fieldChunks f2))) .nil

/-- The sequence branch of `_process_dataclass_field`: strings become
elements holding the string as text, instances are serialized recursively
(inlined as in `process_dataclass_field`).  On any other item the source
would crash with `AttributeError` (it calls `.to_xml` on it); such items
never occur in MDTO instances and are skipped here. -/
def encodeItems : PList → String → XmlList
  | .nil, _ => .nil
  | .cons (.str s) rest, name =>
      .cons (.elem name (some s) .nil) (encodeItems rest name)
  | .cons (.obj c2 f2) rest, name =>
      .cons (.elem name Option.none (arrangeFields c2 (fieldChunks f2)))
        (encodeItems rest name)
  | .cons _ rest, name => encodeItems rest name

end

/-- The nested-instance case of `_process_dataclass_field` is exactly the
recursive `to_xml` call of the source. -/
theorem process_obj (c2 : ClassName) (f2 : PFields) (name : String) :
    process_dataclass_field (.obj c2 f2) name =
      .cons (to_xml (.obj c2 f2) name) .nil := by
  rw [process_dataclass_field, to_xml]

/-- Looking up a field chunk is serializing the looked-up field value. -/
theorem fieldChunks_lookup (n : String) :
    ∀ (fields : PFields),
      ((fieldChunks fields).lookup n).getD .nil =
        process_dataclass_field (getattr fields n) n
  | .nil => by
      rw [fieldChunks]
      simp [getattr, PFields.lookupF, process_dataclass_field]
  | .cons m v rest => by
      rw [fieldChunks]
      by_cases hm : m = n
      · subst hm
        simp [List.lookup, getattr, PFields.lookupF]
      · have hb : (n == m) = false := beq_false_of_ne (fun hh => hm hh.symm)
        simp only [List.lookup, hb, getattr, PFields.lookupF, if_neg hm]
        exact fieldChunks_lookup n rest

/-- Translation of the `Serializable.to_xml` loop, in the source's own
shape: children are, for each descriptor in resolver wire order, the
serialization of `getattr(self, field.name)` under the field name. -/
theorem to_xml_fields (c : ClassName) (fields : PFields) (root : String) :
    to_xml (.obj c fields) root =
      .elem root Option.none
        ((mdto_ordered_fields c).foldr
          (fun fd acc =>
            XmlList.append (process_dataclass_field (getattr fields fd.name) fd.name)
              acc) .nil) := by
  rw [to_xml, arrangeFields]
  congr 1
  induction mdto_ordered_fields c with
  | nil => rfl
  | cons fd rest ih => rw [List.foldr, List.foldr, ih, fieldChunks_lookup]

/-- Counterexample to claim C5 as stated: encoding a concrete concept
data-group emits `begripCode` before `begripBegrippenlijst` — the opposite
of the order the claim asserts (the list-reference field comes after the
code field in the wire order). -/
theorem C5_counterexample :
    (to_xml
      (.obj .BegripGegevens
        (.cons "begripLabel" (.str "V")
          (.cons "begripBegrippenlijst"
            (.obj .VerwijzingGegevens
              (.cons "verwijzingNaam" (.str "waarderingslijst")
                (.cons "verwijzingIdentificatie" .none .nil)))
            (.cons "begripCode" (.str "V1") .nil))))
      "waardering").children.tags =
      ["begripLabel", "begripCode", "begripBegrippenlijst"] ∧
    ["begripLabel", "begripCode", "begripBegrippenlijst"].findIdx
        (fun t => t == "begripCode") <
      ["begripLabel", "begripCode", "begripBegrippenlijst"].findIdx
        (fun t => t == "begripBegrippenlijst") :=
  ⟨rfl, by decide⟩

/-- Claim C5, amended: encoding an entity always emits fields in the
resolver's wire order and depends only on the field values fetched by name
(so the association order of the instance fields — the construction order —
is irrelevant); for the concept data-group the resolver's wire order places
the code field `begripCode` before the list-reference field
`begripBegrippenlijst`, even though the constructor declares the list
reference before the code. -/
theorem C5_encoding_wire_order (c : ClassName) (fields : PFields) (root : String) :
    to_xml (.obj c fields) root =
      .elem root Option.none
        ((mdto_ordered_fields c).foldr
          (fun fd acc =>
            XmlList.append (process_dataclass_field (getattr fields fd.name) fd.name)
              acc) .nil) ∧
    (mdto_ordered_fields .BegripGegevens).map FieldDesc.name =
      ["begripLabel", "begripCode", "begripBegrippenlijst"] ∧
    (fieldsOf .BegripGegevens).map FieldDesc.name =
      ["begripLabel", "begripBegrippenlijst", "begripCode"] :=
  ⟨to_xml_fields c fields root, rfl, rfl⟩

/-- The MDTO XML namespace in lxml tag syntax, as stripped by the decoder. -/
def mdtoNs : String := "\x7bhttps://www.nationaalarchief.nl/mdto\x7d"

/-- Python `str.removeprefix`: drop `pre` when it is a prefix, else return
the string unchanged. -/
def removeStart (s pre : String) : String :=
  if pre.data.isPrefixOf s.data then ⟨s.data.drop pre.data.length⟩ else s

/-- Strip the MDTO namespace from a tag
(`tag.removeprefix("{https://www.nationaalarchief.nl/mdto}")`). -/
def stripNs (t : String) : String := removeStart t mdtoNs

/-- The text of a leaf node as a Python value: lxml reports `None` for an
element without text. -/
def textOf (node : Xml) : PVal :=
  match node.text with
  | some s => .str s
  | Option.none => .none

/-- Strip of surrounding whitespace as Python `int()` performs it. -/
def pyIntTrim (l : List Char) : List Char :=
  ((l.dropWhile Char.isWhitespace).reverse.dropWhile Char.isWhitespace).reverse

/-- Decimal value of a digit string. -/
def digitsToNat (l : List Char) : Nat :=
  l.foldl (fun acc c => acc * 10 + (c.toNat - 48)) 0

/-- Model of Python `int(s)` on decimal notation: optional surrounding
whitespace, an optional sign, then digits.  Exotic accepted forms
(underscore digit separators, non-ASCII digits) are not modelled; no MDTO
document uses them. -/
def pyInt? (s : String) : Option Int :=
  let t := pyIntTrim s.data
  let core := match t with
    | '-' :: rest => rest
    | '+' :: rest => rest
    | _ => t
  let neg : Bool := match t with
    | '-' :: _ => true
    | _ => false
  if core.isEmpty then Option.none
  else if core.all Char.isDigit then
    some (if neg then -(digitsToNat core : Int) else (digitsToNat core : Int))
  else Option.none

/-- Decode-time failures of `from_xml`, by the Python exception the source
(or lxml) raises: `node[i]` on a too-short element raises `IndexError`
("list index out of range"), an unrecognized child tag raises the
dictionary `KeyError`, `int()` on a malformed literal raises `ValueError`,
and `int(None)` raises `TypeError`. -/
inductive DecodeErr where
  | indexError
  | keyError (key : String)
  | valueError (msg : String)
  | typeError
deriving Repr, DecidableEq

/-- The message carried by each decode failure (for `indexError` the text of
the `IndexError` that lxml child indexing raises). -/
def decodeErrMsg : DecodeErr → String
  | .indexError => "list index out of range"
  | .keyError k => k
  | .valueError m => m
  | .typeError => "int() argument cannot be None"

/-- Occurrence search on character lists, for the substring test below. -/
def subSearch (hay needle : List Char) : Bool :=
  match hay with
  | [] => needle.isEmpty
  | _ :: t => needle.isPrefixOf hay || subSearch t needle

/-- Python `sub in s` on strings. -/
def strContains (s sub : String) : Bool := subSearch s.data sub.data

/-- The `parse_text` closure of `from_xml`: return `node.text`. -/
def parse_text (node : Xml) : PVal := textOf node

/-- The `parse_int` closure of `from_xml`: `int(node.text)`. -/
def parse_int (node : Xml) : Except DecodeErr PVal :=
  match node.text with
  | Option.none => .error .typeError
  | some s =>
      match pyInt? s with
      | some n => .ok (.int n)
      | Option.none =>
          .error (.valueError ("invalid literal for int() with base 10: " ++ s))

/-- The `parse_identificatie` closure of `from_xml`: build an
`IdentificatieGegevens` from `node[0].text` and `node[1].text`, positionally
and without looking at tags; fewer than two children raise the bare
`IndexError` of `node[1]` (or `node[0]`). -/
def parse_identificatie (node : Xml) : Except DecodeErr PVal :=
  match node.children with
  | .cons c0 (.cons c1 _) =>
      .ok (.obj .IdentificatieGegevens
        (.cons "identificatieKenmerk" (textOf c0)
          (.cons "identificatieBron" (textOf c1) .nil)))
  | _ => .error .indexError

/-- The `parse_verwijzing` closure of `from_xml`: one child gives a name-only
reference, two or more give name plus identification (parsed from the second
child); no children raise the `IndexError` of `node[0]`. -/
def parse_verwijzing (node : Xml) : Except DecodeErr PVal :=
  match node.children with
  | .nil => .error .indexError
  | .cons c0 .nil =>
      .ok (.obj .VerwijzingGegevens
        (.cons "verwijzingNaam" (textOf c0)
          (.cons "verwijzingIdentificatie" .none .nil)))
  | .cons c0 (.cons c1 _) =>
      match parse_identificatie c1 with
      | .error e => .error e
      | .ok idv =>
          .ok (.obj .VerwijzingGegevens
            (.cons "verwijzingNaam" (textOf c0)
              (.cons "verwijzingIdentificatie" idv .nil)))

/-- The parser of a `from_xml` dispatch table entry: direct text or integer
extraction, one of the two bespoke parsers, or a recursive `elem_to_mdto`
descent into another MDTO class. -/
inductive Parser where
  | text
  | int
  | identificatie
  | verwijzing
  | nested (c : ClassName)
deriving Repr, DecidableEq

/-- The parser dispatch tables of `from_xml` (`begrip_parsers`,
`termijn_parsers`, ..., `informatieobject_parsers`, `bestand_parsers`), in
dictionary insertion order.  `IdentificatieGegevens` and
`VerwijzingGegevens` have no table: they are parsed by the bespoke
fixed-arity parsers. -/
def parsersOf : ClassName → List (String × Parser)
  | .BegripGegevens =>
      [("begripLabel", .text), ("begripCode", .text),
       ("begripBegrippenlijst", .verwijzing)]
  | .TermijnGegevens =>
      [("termijnTriggerStartLooptijd", .nested .BegripGegevens),
       ("termijnStartdatumLooptijd", .text),
       ("termijnLooptijd", .text), ("termijnEinddatum", .text)]
  | .BeperkingGebruikGegevens =>
      [("beperkingGebruikType", .nested .BegripGegevens),
       ("beperkingGebruikNadereBeschrijving", .text),
       ("beperkingGebruikDocumentatie", .verwijzing),
       ("beperkingGebruikTermijn", .nested .TermijnGegevens)]
  | .RaadpleeglocatieGegevens =>
      [("raadpleeglocatieFysiek", .verwijzing),
       ("raadpleeglocatieOnline", .text)]
  | .DekkingInTijdGegevens =>
      [("dekkingInTijdType", .nested .BegripGegevens),
       ("dekkingInTijdBegindatum", .text), ("dekkingInTijdEinddatum", .text)]
  | .EventGegevens =>
      [("eventType", .nested .BegripGegevens), ("eventTijd", .text),
       ("eventVerantwoordelijkeActor", .verwijzing), ("eventResultaat", .text)]
  | .GerelateerdInformatieobjectGegevens =>
      [("gerelateerdInformatieobjectVerwijzing", .verwijzing),
       ("gerelateerdInformatieobjectTypeRelatie", .nested .BegripGegevens)]
  | .BetrokkeneGegevens =>
      [("betrokkeneTypeRelatie", .nested .BegripGegevens),
       ("betrokkeneActor", .verwijzing)]
  | .ChecksumGegevens =>
      [("checksumAlgoritme", .nested .BegripGegevens),
       ("checksumWaarde", .text), ("checksumDatum", .text)]
  | .Informatieobject =>
      [("naam", .text), ("identificatie", .identificatie),
       ("aggregatieniveau", .nested .BegripGegevens),
       ("classificatie", .nested .BegripGegevens),
       ("trefwoord", .text), ("omschrijving", .text),
       ("raadpleeglocatie", .nested .RaadpleeglocatieGegevens),
       ("dekkingInTijd", .nested .DekkingInTijdGegevens),
       ("dekkingInRuimte", .verwijzing), ("taal", .text),
       ("event", .nested .EventGegevens),
       ("waardering", .nested .BegripGegevens),
       ("bewaartermijn", .nested .TermijnGegevens),
       ("informatiecategorie", .nested .BegripGegevens),
       ("isOnderdeelVan", .verwijzing), ("bevatOnderdeel", .verwijzing),
       ("heeftRepresentatie", .verwijzing),
       ("aanvullendeMetagegevens", .verwijzing),
       ("gerelateerdInformatieobject", .nested .GerelateerdInformatieobjectGegevens),
       ("archiefvormer", .verwijzing),
       ("betrokkene", .nested .BetrokkeneGegevens),
       ("activiteit", .verwijzing),
       ("beperkingGebruik", .nested .BeperkingGebruikGegevens)]
  | .Bestand =>
      [("naam", .text), ("identificatie", .identificatie), ("omvang", .int),
       ("checksum", .nested .ChecksumGegevens),
       ("bestandsformaat", .nested .BegripGegevens),
       ("URLBestand", .text), ("isRepresentatieVan", .verwijzing)]
  | .IdentificatieGegevens => []
  | .VerwijzingGegevens => []

/-- The `constructor_args = {field: [] for field in parsers}` initialisation
of `elem_to_mdto`: one empty bucket per dispatch-table entry. -/
def initBuckets (c : ClassName) : List (String × List PVal) :=
  (parsersOf c).map (fun p => (p.1, []))

/-- The `constructor_args[mdto_field].append(...)` step: append a parsed
value to the bucket of its field (the key is always present, the caller
looked it up in the dispatch table). -/
def appendBucket : List (String × List PVal) → String → PVal →
    List (String × List PVal)
  | [], _, _ => []
  | (m, l) :: rest, n, v =>
      if m = n then (m, l ++ [v]) :: rest else (m, l) :: appendBucket rest n v

/-- The bucket-collapse step of `elem_to_mdto`: an empty bucket becomes
`None`, a one-element bucket its single value, a longer bucket the list. -/
def collapse : List PVal → PVal
  | [] => .none
  | [v] => v
  | l => .list (PList.ofList l)

/-- Collapse every bucket. -/
def collapseBuckets (bkts : List (String × List PVal)) : List (String × PVal) :=
  bkts.map (fun p => (p.1, collapse p.2))

/-- The `mdto_class(**constructor_args)` call: a dataclass instance built by
keyword holds the declared fields in declaration order, each field taking
the value passed for its name (`elem_to_mdto` always passes every field of
the table, which covers all declared fields). -/
def mkFields (c : ClassName) (args : List (String × PVal)) : PFields :=
  PFields.ofList
    ((fieldsOf c).map (fun fd => (fd.name, (args.lookup fd.name).getD .none)))

/-- The instance built by `mdto_class(**constructor_args)`. -/
def mkObj (c : ClassName) (args : List (String × PVal)) : PVal :=
  .obj c (mkFields c args)

mutual

/-- Run a dispatch-table parser on a child element.  The `nested` case is
`elem_to_mdto` of the child's children (inlined; `runParser_nested` below
restates it). -/
def runParser : Parser → Xml → Except DecodeErr PVal
  | .text, node => .ok (parse_text node)
  | .int, node => parse_int node
  | .identificatie, node => parse_identificatie node
  | .verwijzing, node => parse_verwijzing node
  | .nested c, .elem _ _ cs =>
      match decodeChildren c cs (initBuckets c) with
      | .error e => .error e
      | .ok bkts => .ok (mkObj c (collapseBuckets bkts))

/-- The `for child in elem` loop of `elem_to_mdto`: strip the namespace from
the child tag, look its parser up in the dispatch table (a missing entry is
the dictionary `KeyError`), parse the child, and append the value to the
field's bucket. -/
def decodeChildren (c : ClassName) :
    XmlList → List (String × List PVal) → Except DecodeErr (List (String × List PVal))
  | .nil, bkts => .ok bkts
  | .cons child rest, bkts =>
      match (parsersOf c).lookup (stripNs child.tag) with
      | Option.none => .error (.keyError (stripNs child.tag))
      | some p =>
          match runParser p child with
          | .error e => .error e
          | .ok v => decodeChildren c rest (appendBucket bkts (stripNs child.tag) v)

end

/-- Translation of `elem_to_mdto`: accumulate every child into per-field
buckets, collapse the buckets by count, and construct the class instance
with the collapsed values as keyword arguments. -/
def elem_to_mdto (c : ClassName) (cs : XmlList) : Except DecodeErr PVal :=
  match decodeChildren c cs (initBuckets c) with
  | .error e => .error e
  | .ok bkts => .ok (mkObj c (collapseBuckets bkts))

/-- A nested parser is `elem_to_mdto` on the children of the node. -/
theorem runParser_nested (c : ClassName) (node : Xml) :
    runParser (.nested c) node = elem_to_mdto c node.children := by
  cases node
  rw [runParser, elem_to_mdto]
  rfl

/-- Translation of the tail of `from_xml` (the part after `ET.parse`): take
the first child of the document root (`root[0]`; an lxml `IndexError` when
there is none), strip the MDTO namespace from its tag, and dispatch on the
two recognized top-level element names; any other name raises the
`ValueError` of the source (whose message also interpolates the input file
name, not modelled since the model receives the parsed tree). -/
def from_xml (root : Xml) : Except DecodeErr PVal :=
  match root.children with
  | .nil => .error .indexError
  | .cons rc _ =>
      if stripNs rc.tag = "informatieobject" then
        elem_to_mdto .Informatieobject rc.children
      else if stripNs rc.tag = "bestand" then
        elem_to_mdto .Bestand rc.children
      else
        .error (.valueError ("Unexpected first child <" ++ stripNs rc.tag ++
          ">: expected <informatieobject> or <bestand>."))

example :
    from_xml (.elem "MDTO" Option.none (.cons
      (.elem (mdtoNs ++ "informatieobject") Option.none
        (.cons (.elem (mdtoNs ++ "naam") (some "Kapvergunning") .nil)
          (.cons (.elem (mdtoNs ++ "trefwoord") (some "bomen") .nil)
            (.cons (.elem (mdtoNs ++ "trefwoord") (some "kappen") .nil) .nil))))
      .nil)) =
    .ok (mkObj .Informatieobject
      [("naam", .str "Kapvergunning"), ("identificatie", .none),
       ("aggregatieniveau", .none), ("classificatie", .none),
       ("trefwoord", .list (.cons (.str "bomen") (.cons (.str "kappen") .nil))),
       ("omschrijving", .none), ("raadpleeglocatie", .none),
       ("dekkingInTijd", .none), ("dekkingInRuimte", .none), ("taal", .none),
       ("event", .none), ("waardering", .none), ("bewaartermijn", .none),
       ("informatiecategorie", .none), ("isOnderdeelVan", .none),
       ("bevatOnderdeel", .none), ("heeftRepresentatie", .none),
       ("aanvullendeMetagegevens", .none), ("gerelateerdInformatieobject", .none),
       ("archiefvormer", .none), ("betrokkene", .none), ("activiteit", .none),
       ("beperkingGebruik", .none)]) := rfl

/-- Claim C8: `from_xml` dispatches on the namespace-stripped tag of the
first child of the document root: "informatieobject" and "bestand" go to
the corresponding top-level parser, and any other name fails with the
`ValueError` whose message names the unexpected element. -/
theorem C8_from_xml_dispatch (t : String) (x : Option String) (rc : Xml)
    (rest : XmlList) :
    from_xml (.elem t x (.cons rc rest)) =
      (if stripNs rc.tag = "informatieobject" then
        elem_to_mdto .Informatieobject rc.children
      else if stripNs rc.tag = "bestand" then
        elem_to_mdto .Bestand rc.children
      else
        .error (.valueError ("Unexpected first child <" ++ stripNs rc.tag ++
          ">: expected <informatieobject> or <bestand>."))) ∧
    (stripNs rc.tag ≠ "informatieobject" → stripNs rc.tag ≠ "bestand" →
      ∃ pre post, from_xml (.elem t x (.cons rc rest)) =
        .error (.valueError (pre ++ ("<" ++ stripNs rc.tag ++ ">") ++ post))) := by
  have h0 : from_xml (.elem t x (.cons rc rest)) =
      (if stripNs rc.tag = "informatieobject" then
        elem_to_mdto .Informatieobject rc.children
      else if stripNs rc.tag = "bestand" then
        elem_to_mdto .Bestand rc.children
      else
        .error (.valueError ("Unexpected first child <" ++ stripNs rc.tag ++
          ">: expected <informatieobject> or <bestand>."))) := by
    rw [from_xml]
    rfl
  refine ⟨h0, ?_⟩
  intro h1 h2
  refine ⟨"Unexpected first child ",
          ": expected <informatieobject> or <bestand>.", ?_⟩
  rw [h0, if_neg h1, if_neg h2]
  congr 2
  simp only [String.append_assoc]
  conv_rhs => rw [← String.append_assoc]
  congr 1

/-- Witness for C8 at a concrete input: a root whose first child is
`<verwijzing>` is rejected with a `ValueError` naming that element. -/
theorem C8_from_xml_dispatch_witness :
    from_xml (.elem "MDTO" Option.none
      (.cons (.elem (mdtoNs ++ "verwijzing") Option.none .nil) .nil)) =
      .error (.valueError
        "Unexpected first child <verwijzing>: expected <informatieobject> or <bestand>.") := by
  rw [(C8_from_xml_dispatch "MDTO" Option.none
    (.elem (mdtoNs ++ "verwijzing") Option.none .nil) .nil).1]
  rfl

/-- Counterexample to claim C9 as stated: decoding a document whose
identification block has only one of its two required children does fail,
but with the bare lxml `IndexError` ("list index out of range") — an error
that names neither the identification field nor any path (it does not even
contain the substring "identificatie"). -/
theorem C9_counterexample :
    from_xml (.elem "MDTO" Option.none (.cons
      (.elem (mdtoNs ++ "informatieobject") Option.none
        (.cons (.elem (mdtoNs ++ "identificatie") Option.none
          (.cons (.elem (mdtoNs ++ "identificatieKenmerk") (some "abc") .nil)
            .nil))
          .nil))
      .nil)) = .error .indexError ∧
    decodeErrMsg .indexError = "list index out of range" ∧
    strContains (decodeErrMsg .indexError) "identificatie" = false ∧
    strContains (decodeErrMsg .indexError) "Kenmerk" = false ∧
    strContains (decodeErrMsg .indexError) "Bron" = false :=
  ⟨rfl, rfl, rfl, rfl, rfl⟩

/-- Claim C9, amended: an identification block with fewer than its two
required children makes decode fail, but with the bare `IndexError` of the
positional child access (`node[0]`/`node[1]`), whose message is "list index
out of range" and carries no field path. -/
theorem C9_identificatie_short (node : Xml) (h : node.children.length < 2) :
    parse_identificatie node = .error .indexError ∧
    decodeErrMsg .indexError = "list index out of range" := by
  refine ⟨?_, rfl⟩
  rcases node with ⟨t, x, cs⟩
  rcases cs with _ | ⟨c0, cs2⟩
  · rfl
  · rcases cs2 with _ | ⟨c1, cs3⟩
    · rfl
    · exact absurd h (by simp [Xml.children, XmlList.length])

/-- Witness for C9 at a concrete input: an identification element holding
only `identificatieKenmerk` raises the bare index error. -/
theorem C9_identificatie_short_witness :
    parse_identificatie (.elem (mdtoNs ++ "identificatie") Option.none
      (.cons (.elem (mdtoNs ++ "identificatieKenmerk") (some "abc") .nil) .nil)) =
      .error .indexError :=
  (C9_identificatie_short
    (.elem (mdtoNs ++ "identificatie") Option.none
      (.cons (.elem (mdtoNs ++ "identificatieKenmerk") (some "abc") .nil) .nil))
    (by decide)).1

theorem lookup_initBuckets (n : String) :
    ∀ (l : List (String × Parser)),
      (l.map (fun p => (p.1, ([] : List PVal)))).lookup n =
        (l.lookup n).map (fun _ => ([] : List PVal))
  | [] => rfl
  | (k, p) :: rest => by
      cases hk : (n == k) <;>
        simp [List.lookup, hk, lookup_initBuckets n rest]

theorem lookup_collapseBuckets (n : String) :
    ∀ (bkts : List (String × List PVal)),
      (collapseBuckets bkts).lookup n = (bkts.lookup n).map collapse
  | [] => rfl
  | (k, l) :: rest => by
      cases hk : (n == k)
      · simp only [collapseBuckets, List.map, List.lookup, hk]
        simpa [collapseBuckets] using lookup_collapseBuckets n rest
      · simp [collapseBuckets, List.lookup, hk]

theorem lookup_appendBucket_self (t : String) (v : PVal) :
    ∀ (bkts : List (String × List PVal)) (l : List PVal),
      bkts.lookup t = some l →
      (appendBucket bkts t v).lookup t = some (l ++ [v])
  | [], l, h => by cases h
  | (k, kl) :: rest, l, h => by
      by_cases hk : k = t
      · subst hk
        simp [List.lookup] at h
        subst h
        simp [appendBucket, List.lookup]
      · have hb : (t == k) = false := beq_false_of_ne (fun hh => hk hh.symm)
        rw [appendBucket, if_neg hk]
        rw [List.lookup, hb] at h
        simp at h
        rw [List.lookup, hb]
        simp only []
        exact lookup_appendBucket_self t v rest l h

theorem lookup_appendBucket_other (t n : String) (v : PVal) (hn : n ≠ t) :
    ∀ (bkts : List (String × List PVal)),
      (appendBucket bkts t v).lookup n = bkts.lookup n
  | [] => rfl
  | (k, kl) :: rest => by
      by_cases hk : k = t
      · subst hk
        have hb : (n == k) = false := beq_false_of_ne hn
        rw [appendBucket, if_pos rfl]
        rw [List.lookup, List.lookup, hb]
      · rw [appendBucket, if_neg hk]
        rw [List.lookup, List.lookup]
        cases hb : (n == k)
        · simp only []
          exact lookup_appendBucket_other t n v hn rest
        · rfl

theorem lookupF_ofList (n : String) :
    ∀ (l : List (String × PVal)), (PFields.ofList l).lookupF n = l.lookup n
  | [] => rfl
  | (k, v) :: rest => by
      by_cases hk : k = n
      · subst hk
        simp [PFields.ofList, PFields.lookupF, List.lookup]
      · have hb : (n == k) = false := beq_false_of_ne (fun hh => hk hh.symm)
        rw [PFields.ofList, PFields.lookupF, if_neg hk, List.lookup, hb]
        exact lookupF_ofList n rest

theorem lookup_mem {β : Type} (n : String) (p : β) :
    ∀ (l : List (String × β)), l.lookup n = some p → (n, p) ∈ l
  | [], h => by cases h
  | (k, b) :: rest, h => by
      rw [List.lookup] at h
      cases hk : (n == k)
      · rw [hk] at h
        simp only [] at h
        exact List.mem_cons_of_mem _ (lookup_mem n p rest h)
      · rw [hk] at h
        simp only [Option.some.injEq] at h
        have : n = k := by simpa using hk
        subst this
        subst h
        exact List.mem_cons_self _ _

theorem parserTable_fields (c : ClassName) :
    (parsersOf c).all
      (fun pr => (fieldsOf c).any (fun fd => fd.name == pr.1)) = true := by
  cases c <;> decide

theorem lookup_fieldMap (n : String) (g : FieldDesc → PVal) :
    ∀ (l : List FieldDesc), l.any (fun fd => fd.name == n) = true →
      ∃ fd, fd.name = n ∧
        (l.map (fun fd => (fd.name, g fd))).lookup n = some (g fd)
  | [], h => by cases h
  | fd :: rest, h => by
      by_cases hn : fd.name = n
      · refine ⟨fd, hn, ?_⟩
        have hb : (n == fd.name) = true := by simp [hn]
        simp [List.lookup, hb]
      · have hb : (fd.name == n) = false := beq_false_of_ne hn
        rw [List.any, hb, Bool.false_or] at h
        obtain ⟨fd2, h1, h2⟩ := lookup_fieldMap n g rest h
        refine ⟨fd2, h1, ?_⟩
        have hb2 : (n == fd.name) = false := beq_false_of_ne (fun hh => hn hh.symm)
        simpa [List.lookup, hb2] using h2

theorem getattr_mkFields (c : ClassName) (n : String)
    (args : List (String × PVal))
    (hmem : (fieldsOf c).any (fun fd => fd.name == n) = true) :
    getattr (mkFields c args) n = (args.lookup n).getD .none := by
  obtain ⟨fd, h1, h2⟩ :=
    lookup_fieldMap n (fun fd => (args.lookup fd.name).getD .none) (fieldsOf c) hmem
  rw [getattr, mkFields, lookupF_ofList, h2, h1]
  rfl

theorem decodeChildren_lookup (c : ClassName) (n : String) (p : Parser)
    (hp : (parsersOf c).lookup n = some p) :
    ∀ (cs : XmlList) (bkts out : List (String × List PVal)) (acc : List PVal),
      decodeChildren c cs bkts = .ok out →
      bkts.lookup n = some acc →
      ∃ vs, (cs.toList.filter (fun x => stripNs x.tag == n)).mapM (runParser p) =
          Except.ok vs ∧
        out.lookup n = some (acc ++ vs)
  | .nil, bkts, out, acc, hres, hb => by
      rw [decodeChildren] at hres
      cases hres
      exact ⟨[], rfl, by simpa using hb⟩
  | .cons child rest, bkts, out, acc, hres, hb => by
      rw [decodeChildren] at hres
      cases hlk : (parsersOf c).lookup (stripNs child.tag) with
      | none => simp only [hlk] at hres; cases hres
      | some pc =>
          simp only [hlk] at hres
          cases hrun : runParser pc child with
          | error e => simp only [hrun] at hres; cases hres
          | ok v =>
              simp only [hrun] at hres
              by_cases ht : stripNs child.tag = n
              · have hpc : pc = p := by
                  rw [ht] at hlk
                  rw [hlk] at hp
                  injection hp
                subst hpc
                have hb2 : (appendBucket bkts (stripNs child.tag) v).lookup n =
                    some (acc ++ [v]) := by
                  rw [ht]
                  exact lookup_appendBucket_self n v bkts acc hb
                obtain ⟨vs, hmap, hout⟩ :=
                  decodeChildren_lookup c n pc hp rest _ out (acc ++ [v]) hres hb2
                have hbt : (stripNs child.tag == n) = true := by simp [ht]
                refine ⟨v :: vs, ?_, ?_⟩
                · simp only [XmlList.toList, List.filter, hbt, List.mapM_cons,
                    hrun, hmap]
                  rfl
                · rw [hout]
                  simp
              · have hbt : (stripNs child.tag == n) = false := beq_false_of_ne ht
                have hb2 : (appendBucket bkts (stripNs child.tag) v).lookup n =
                    some acc := by
                  rw [lookup_appendBucket_other _ n v (fun hh => ht hh.symm)]
                  exact hb
                obtain ⟨vs, hmap, hout⟩ :=
                  decodeChildren_lookup c n p hp rest _ out acc hres hb2
                refine ⟨vs, ?_, hout⟩
                simpa only [XmlList.toList, List.filter, hbt] using hmap

/-- Claim C2: whenever `elem_to_mdto` successfully decodes an entity
element, each field of the constructed instance is the collapse-by-count of
its bucket: the parses (in document order) of exactly the children whose
namespace-stripped tag equals the field name; an empty bucket yields `None`,
a singleton yields the scalar value, and two or more yield the list in
document order. -/
theorem C2_bucket_collapse (c : ClassName) (cs : XmlList) (flds : PFields)
    (n : String) (p : Parser)
    (hd : elem_to_mdto c cs = .ok (.obj c flds))
    (hp : (parsersOf c).lookup n = some p) :
    ∃ vs : List PVal,
      (cs.toList.filter (fun x => stripNs x.tag == n)).mapM (runParser p) =
        Except.ok vs ∧
      getattr flds n = collapse vs ∧
      (vs = [] → getattr flds n = .none) ∧
      (∀ v, vs = [v] → getattr flds n = v) ∧
      (2 ≤ vs.length → getattr flds n = .list (PList.ofList vs)) := by
  rw [elem_to_mdto] at hd
  cases hdec : decodeChildren c cs (initBuckets c) with
  | error e => simp only [hdec] at hd; cases hd
  | ok out =>
      simp only [hdec] at hd
      rw [mkObj] at hd
      cases hd
      have hinit : (initBuckets c).lookup n = some [] := by
        rw [initBuckets, lookup_initBuckets n (parsersOf c), hp]
        rfl
      obtain ⟨vs, hmap, hout⟩ :=
        decodeChildren_lookup c n p hp cs _ out [] hdec hinit
      have hmem : (fieldsOf c).any (fun fd => fd.name == n) = true := by
        have h1 := lookup_mem n p (parsersOf c) hp
        have h2 := parserTable_fields c
        rw [List.all_eq_true] at h2
        exact h2 (n, p) h1
      have hga : getattr (mkFields c (collapseBuckets out)) n = collapse vs := by
        rw [getattr_mkFields c n _ hmem, lookup_collapseBuckets n out, hout]
        simp
      refine ⟨vs, hmap, hga, ?_, ?_, ?_⟩
      · intro h
        subst h
        rw [hga]
        rfl
      · intro v h
        subst h
        rw [hga]
        rfl
      · intro hlen
        rw [hga]
        rcases vs with _ | ⟨a, _ | ⟨b, t⟩⟩
        · cases hlen
        · exact absurd hlen (by simp)
        · rfl

/-- Witness for C2 at a concrete input: an informatieobject element with one
`naam` child and two `trefwoord` children decodes the keyword field to the
two-element ordered list of its bucket parses. -/
theorem C2_bucket_collapse_witness :
    ∃ vs : List PVal,
      ((XmlList.cons (.elem (mdtoNs ++ "naam") (some "Kapvergunning") .nil)
          (.cons (.elem (mdtoNs ++ "trefwoord") (some "bomen") .nil)
            (.cons (.elem (mdtoNs ++ "trefwoord") (some "kappen") .nil)
              .nil))).toList.filter
          (fun x => stripNs x.tag == "trefwoord")).mapM (runParser .text) =
        Except.ok vs ∧
      getattr (mkFields .Informatieobject
          [("naam", .str "Kapvergunning"),
           ("trefwoord", .list (.cons (.str "bomen") (.cons (.str "kappen") .nil)))])
        "trefwoord" = collapse vs ∧
      (vs = [] → getattr (mkFields .Informatieobject
          [("naam", .str "Kapvergunning"),
           ("trefwoord", .list (.cons (.str "bomen") (.cons (.str "kappen") .nil)))])
        "trefwoord" = .none) ∧
      (∀ v, vs = [v] → getattr (mkFields .Informatieobject
          [("naam", .str "Kapvergunning"),
           ("trefwoord", .list (.cons (.str "bomen") (.cons (.str "kappen") .nil)))])
        "trefwoord" = v) ∧
      (2 ≤ vs.length → getattr (mkFields .Informatieobject
          [("naam", .str "Kapvergunning"),
           ("trefwoord", .list (.cons (.str "bomen") (.cons (.str "kappen") .nil)))])
        "trefwoord" = .list (PList.ofList vs)) :=
  C2_bucket_collapse .Informatieobject
    (.cons (.elem (mdtoNs ++ "naam") (some "Kapvergunning") .nil)
      (.cons (.elem (mdtoNs ++ "trefwoord") (some "bomen") .nil)
        (.cons (.elem (mdtoNs ++ "trefwoord") (some "kappen") .nil) .nil)))
    (mkFields .Informatieobject
      [("naam", .str "Kapvergunning"),
       ("trefwoord", .list (.cons (.str "bomen") (.cons (.str "kappen") .nil)))])
    "trefwoord" .text rfl rfl

/-- Indentation prefix of `ET.indent(tree, space="\t")` at a nesting level. -/
def tabs : Nat → String
  | 0 => ""
  | n + 1 => tabs n ++ "\t"

mutual

/-- Byte rendering of an element as lxml serializes the tab-indented tree
produced by `Object.to_xml` (and as the canonical MDTO example documents are
laid out): a childless element with text on one line, a childless element
without text self-closed, and element content with every child on its own
tab-indented line.  Tags are serialized namespace-stripped: elements built
by `to_xml` carry plain tags under the default-namespace root, and parsed
elements carry the `{ns}tag` form that the serializer prints as the plain
tag again.  Text escaping of `&`, `<`, `>` applies identically to parsing
and re-serialization and cancels in any byte comparison, so text is
rendered literally; whitespace-only text of parents (re-generated by the
indenter) is represented as absent text. -/
def renderXml (lvl : Nat) : Xml → String
  | .elem tag (some s) .nil =>
      "<" ++ stripNs tag ++ ">" ++ s ++ "</" ++ stripNs tag ++ ">"
  | .elem tag Option.none .nil => "<" ++ stripNs tag ++ "/>"
  | .elem tag _ (.cons x rest) =>
      "<" ++ stripNs tag ++ ">" ++
        ("\n" ++ tabs (lvl + 1) ++ renderXml (lvl + 1) x ++
          renderChildren (lvl + 1) rest) ++
        "\n" ++ tabs lvl ++ "</" ++ stripNs tag ++ ">"

/-- Render a tail of siblings, each on its own indented line. -/
def renderChildren (lvl : Nat) : XmlList → String
  | .nil => ""
  | .cons x rest =>
      "\n" ++ tabs lvl ++ renderXml lvl x ++ renderChildren lvl rest

end

/-- The XML declaration lxml emits for `write(..., xml_declaration=True,
encoding="UTF-8")`: lxml uses single quotes (the repository's own test
`test_file_saving` replaces them with double quotes before comparing with
the MDTO example files). -/
def xmlDeclLxml : String := "<?xml version=\x271.0\x27 encoding=\x27UTF-8\x27?>"

/-- The declaration used by the canonical MDTO example documents:
double-quoted attribute values. -/
def xmlDeclMdto : String := "<?xml version=\x221.0\x22 encoding=\x22UTF-8\x22?>"

/-- The opening tag of the `<MDTO>` document root as `Object.to_xml` builds
it: default namespace, the `xsi` namespace, and the `schemaLocation`
attribute, in insertion order. -/
def mdtoRootOpen : String :=
  "<MDTO xmlns=\"https://www.nationaalarchief.nl/mdto\" " ++
  "xmlns:xsi=\"http://www.w3.org/2001/XMLSchema-instance\" " ++
  "xsi:schemaLocation=\"https://www.nationaalarchief.nl/mdto " ++
  "https://www.nationaalarchief.nl/mdto/MDTO-XML1.0.1.xsd\">"

/-- Bytes of the `<MDTO>` wrapper around a top-level body element, with the
tab indentation of `ET.indent(tree, space="\t")` and the trailing newline of
pretty-printed output. -/
def renderMDTO (body : Xml) : String :=
  mdtoRootOpen ++ "\n\t" ++ renderXml 1 body ++ "\n</MDTO>\n"

/-- Root element name chosen by the two `to_xml` overrides
(`Informatieobject.to_xml` and `Bestand.to_xml`); `Object.to_xml` is only
ever reached through these two subclasses. -/
def rootTag : ClassName → String
  | .Informatieobject => "informatieobject"
  | .Bestand => "bestand"
  | _ => ""

/-- The bytes `Object.save` writes for an object that passed validation:
the lxml declaration, then the `<MDTO>`-wrapped, tab-indented tree of
`to_xml`. -/
def saveString (v : PVal) : String :=
  match v with
  | .obj c _ => xmlDeclLxml ++ "\n" ++ renderMDTO (to_xml v (rootTag c))
  | _ => ""

/-- Translation of `Object.save`: validate first ("validate before
serialization to ensure correctness"), then serialize with `to_xml` and
append the bytes to the output sink; on a validation error the error is
raised and the sink is left untouched. -/
def save (iU : String → Bool) (v : PVal) (sink : String) :
    String × Option VErr :=
  match validate iU v with
  | .error e => (sink, some e)
  | .ok _ => (sink ++ saveString v, Option.none)

/-- Claim C7: `save()` runs `validate()` before encoding and writing: when
validation fails the `ValidationError` is raised and nothing is written
(the sink is unchanged), and only when validation succeeds are the encoded
bytes appended to the sink. -/
theorem C7_save_validates_first (iU : String → Bool) (v : PVal) (sink : String) :
    (∀ e, validate iU v = .error e → save iU v sink = (sink, some e)) ∧
    (validate iU v = .ok () → save iU v sink = (sink ++ saveString v, Option.none)) := by
  constructor
  · intro e h
    rw [save, h]
  · intro h
    rw [save, h]

/-- Witness for C7 at a concrete input: saving a reference with an empty
mandatory name leaves the sink unchanged and raises the mandatory-field
error. -/
theorem C7_save_validates_first_witness :
    save (fun _ => true)
      (.obj .VerwijzingGegevens
        (.cons "verwijzingNaam" (.str "")
          (.cons "verwijzingIdentificatie" .none .nil)))
      "previous sink content" =
      ("previous sink content",
       some ⟨["VerwijzingGegevens", "verwijzingNaam"],
             "mandatory field cannot be empty or None"⟩) :=
  (C7_save_validates_first (fun _ => true)
    (.obj .VerwijzingGegevens
      (.cons "verwijzingNaam" (.str "")
        (.cons "verwijzingIdentificatie" .none .nil)))
    "previous sink content").1
    ⟨["VerwijzingGegevens", "verwijzingNaam"],
     "mandatory field cannot be empty or None"⟩ rfl

mutual

/-- Strip the MDTO namespace from every tag of an element tree.  The MDTO
serializer prints namespace-qualified tags of a default-namespace document
as their plain local names, so two trees equal after `strip` have the same
canonical byte rendering (`render_strip` below). -/
def strip : Xml → Xml
  | .elem t txt cs => .elem (stripNs t) txt (stripL cs)

/-- Strip every sibling. -/
def stripL : XmlList → XmlList
  | .nil => .nil
  | .cons x rest => .cons (strip x) (stripL rest)

end

mutual

/-- Every tag of the tree is unchanged by namespace stripping (true of every
tree the encoder builds: its tags are field and root names). -/
def cleanTags : Xml → Bool
  | .elem t _ cs => (stripNs t == t) && cleanTagsL cs

/-- Tag cleanliness of a sibling list. -/
def cleanTagsL : XmlList → Bool
  | .nil => true
  | .cons x rest => cleanTags x && cleanTagsL rest

end

/-- Canonical integer text: `int()` accepts it and `str(int())` reproduces
it byte for byte. -/
def pyIntCanon (s : String) : Bool :=
  match pyInt? s with
  | some n => toString n == s
  | Option.none => false

/-- A conformant leaf: a childless element with text whose stripped tag is
the expected field name. -/
def confLeaf (x : Xml) (name : String) : Bool :=
  match x with
  | .elem t (some _) .nil => stripNs t == name
  | _ => false

/-- A conformant text leaf: a childless element with text, whatever its
tag. -/
def isTextLeaf : Xml → Bool
  | .elem _ (some _) .nil => true
  | _ => false

/-- A conformant identification block: exactly the two mandatory leaves, in
schema order, under an element-content node. -/
def confIdent : Xml → Bool
  | .elem _ Option.none (.cons k (.cons b .nil)) =>
      confLeaf k "identificatieKenmerk" && confLeaf b "identificatieBron"
  | _ => false

/-- A conformant reference: a name leaf, optionally followed by one
identification block tagged `verwijzingIdentificatie`. -/
def confVerw : Xml → Bool
  | .elem _ Option.none (.cons nm .nil) => confLeaf nm "verwijzingNaam"
  | .elem _ Option.none (.cons nm (.cons idv .nil)) =>
      confLeaf nm "verwijzingNaam" &&
        (stripNs idv.tag == "verwijzingIdentificatie") && confIdent idv
  | _ => false

/-- The wire-order field names of a class. -/
def wireNames (c : ClassName) : List String :=
  (mdto_ordered_fields c).map FieldDesc.name

/-- First index of a string in a list of names. -/
def idxOf? (t : String) : List String → Option Nat
  | [] => Option.none
  | n :: rest => if n == t then some 0 else (idxOf? t rest).map (fun k => k + 1)

/-- Position of a (stripped) tag in the wire order. -/
def wireIdx (c : ClassName) (t : String) : Option Nat :=
  idxOf? t (wireNames c)

/-- Check that an index sequence is all-present and nondecreasing, starting
from a known previous index. -/
def nondecrFrom (a : Nat) : List (Option Nat) → Bool
  | [] => true
  | Option.none :: _ => false
  | some b :: rest => decide (a ≤ b) && nondecrFrom b rest

/-- A sequence of wire indices is conformant when every index is present and
they never decrease: the document lists each field's occurrences as one
consecutive run, in wire order. -/
def nondecr : List (Option Nat) → Bool
  | [] => true
  | Option.none :: _ => false
  | some a :: rest => nondecrFrom a rest

/-- The wire indices of a child list. -/
def tagIdxList (c : ClassName) (cs : XmlList) : List (Option Nat) :=
  cs.toList.map (fun x => wireIdx c (stripNs x.tag))

/-- Child tags grouped in wire order. -/
def wireOK (c : ClassName) (cs : XmlList) : Bool := nondecr (tagIdxList c cs)

/-- At most one occurrence of every integer-parsed field (a second
occurrence would decode into a list of ints, which the encoder cannot
serialize — Python would raise `AttributeError`; the MDTO schema allows at
most one such element anyway). -/
def intOK (c : ClassName) (cs : XmlList) : Bool :=
  (parsersOf c).all (fun pr =>
    match pr.2 with
    | .int => decide (cs.toList.countP (fun x => stripNs x.tag == pr.1) ≤ 1)
    | _ => true)

mutual

/-- Conformance of a child element for the dispatch-table parser that will
consume it: the canonical, schema-shaped documents on which decode-then-
encode is byte-faithful. -/
def confP : Parser → Xml → Bool
  | .text, x => isTextLeaf x
  | .int, x =>
      (match x with
       | .elem _ (some s) .nil => pyIntCanon s
       | _ => false)
  | .identificatie, x => confIdent x
  | .verwijzing, x => confVerw x
  | .nested c, .elem _ txt cs =>
      txt.isNone && confChildren c cs && wireOK c cs && intOK c cs

/-- Conformance of a child list: every child's stripped tag has a parser in
the class table and the child is conformant for it. -/
def confChildren (c : ClassName) : XmlList → Bool
  | .nil => true
  | .cons x rest =>
      (match (parsersOf c).lookup (stripNs x.tag) with
       | some p => confP p x
       | Option.none => false) && confChildren c rest

end

/-- Decoded values that the sequence branch of the encoder serializes the
same way as the scalar branch: strings and instances. -/
def itemFlag : PVal → Bool
  | .str _ => true
  | .obj _ _ => true
  | _ => false

theorem wireNames_nodup (c : ClassName) : (wireNames c).Nodup := by
  cases c <;> decide

theorem wireNames_clean (c : ClassName) :
    (wireNames c).all (fun n => stripNs n == n) = true := by
  cases c <;> decide

theorem tableKeys_wire (c : ClassName) :
    (parsersOf c).all (fun pr => (wireNames c).any (fun m => m == pr.1)) = true := by
  cases c <;> decide

example : stripNs "informatieobject" = "informatieobject" := by decide
example : stripNs (mdtoNs ++ "naam") = "naam" := by decide

theorem nondecrFrom_nondecr : ∀ (os : List (Option Nat)) (a : Nat),
    nondecrFrom a os = true → nondecr os = true := by
  intro os
  induction os with
  | nil => intro a h; rfl
  | cons o t ih =>
      intro a h
      cases o with
      | none => exact absurd h (by simp [nondecrFrom])
      | some b =>
          have h2 : (decide (a ≤ b) && nondecrFrom b t) = true := h
          have h3 := (Bool.and_eq_true _ _).mp h2
          exact h3.2

theorem nondecr_tail : ∀ (o : Option Nat) (os : List (Option Nat)),
    nondecr (o :: os) = true → nondecr os = true := by
  intro o os h
  cases o with
  | none => exact absurd h (by simp [nondecr])
  | some a => exact nondecrFrom_nondecr os a h

theorem nondecrFrom_ge : ∀ (os : List (Option Nat)) (a : Nat),
    nondecrFrom a os = true → ∀ o ∈ os, ∃ b, o = some b ∧ a ≤ b := by
  intro os
  induction os with
  | nil => intro a h o ho; cases ho
  | cons x t ih =>
      intro a h o ho
      cases x with
      | none => exact absurd h (by simp [nondecrFrom])
      | some b =>
          have h2 : (decide (a ≤ b) && nondecrFrom b t) = true := h
          have h3 := (Bool.and_eq_true _ _).mp h2
          have hab : a ≤ b := of_decide_eq_true h3.1
          rcases List.mem_cons.mp ho with rfl | ho
          · exact ⟨b, rfl, hab⟩
          · obtain ⟨c, hc, hbc⟩ := ih b h3.2 o ho
            exact ⟨c, hc, le_trans hab hbc⟩

theorem nondecr_head_some : ∀ (o : Option Nat) (os : List (Option Nat)),
    nondecr (o :: os) = true → ∃ a, o = some a ∧ nondecrFrom a os = true := by
  intro o os h
  cases o with
  | none => exact absurd h (by simp [nondecr])
  | some a => exact ⟨a, rfl, h⟩

theorem nondecr_append_right : ∀ (xs ys : List (Option Nat)),
    nondecr (xs ++ ys) = true → nondecr ys = true := by
  intro xs
  induction xs with
  | nil => intro ys h; exact h
  | cons x t ih => intro ys h; exact ih ys (nondecr_tail x (t ++ ys) h)

theorem nondecrFrom_unshift : ∀ (os : List (Option Nat)) (a : Nat),
    nondecrFrom (a + 1) (os.map (Option.map (fun k => k + 1))) = true →
    nondecrFrom a os = true := by
  intro os
  induction os with
  | nil => intro a h; rfl
  | cons o t ih =>
      intro a h
      cases o with
      | none => exact absurd h (by simp [nondecrFrom])
      | some b =>
          have h2 : (decide (a + 1 ≤ b + 1) &&
              nondecrFrom (b + 1) (t.map (Option.map (fun k => k + 1)))) = true := h
          have h3 := (Bool.and_eq_true _ _).mp h2
          have hab : a ≤ b := Nat.le_of_succ_le_succ (of_decide_eq_true h3.1)
          have : (decide (a ≤ b) && nondecrFrom b t) = true :=
            (Bool.and_eq_true _ _).mpr ⟨decide_eq_true hab, ih b h3.2⟩
          exact this

theorem nondecr_unshift : ∀ (os : List (Option Nat)),
    nondecr (os.map (Option.map (fun k => k + 1))) = true → nondecr os = true := by
  intro os h
  cases os with
  | nil => rfl
  | cons o t =>
      cases o with
      | none => exact absurd h (by simp [nondecr])
      | some a =>
          have h2 : nondecrFrom (a + 1) (t.map (Option.map (fun k => k + 1))) = true := h
          exact nondecrFrom_unshift t a h2

theorem drop_ne_zero {α : Type} (f : α → Option Nat) (p : α → Bool)
    (hp : ∀ x, p x = true ↔ f x = some 0) :
    ∀ l : List α, nondecr (l.map f) = true →
      ∀ x ∈ l.dropWhile p, f x ≠ some 0 := by
  intro l
  induction l with
  | nil => intro h x hx; cases hx
  | cons y t ih =>
      intro h x hx
      by_cases hpy : p y = true
      · rw [List.dropWhile_cons, if_pos hpy] at hx
        exact ih (nondecr_tail (f y) (t.map f) h) x hx
      · rw [List.dropWhile_cons, if_neg hpy] at hx
        rcases List.mem_cons.mp hx with rfl | hx
        · intro hf0
          exact hpy ((hp x).mpr hf0)
        · rw [List.map_cons] at h
          obtain ⟨a, hfy, hfrom⟩ := nondecr_head_some (f y) (t.map f) h
          obtain ⟨b, hb, hab⟩ :=
            nondecrFrom_ge (t.map f) a hfrom (f x) (List.mem_map_of_mem f hx)
          intro hf0
          rw [hf0] at hb
          have hb0 : (0 : Nat) = b := by
            injection hb
          have ha0 : a = 0 := by omega
          exact hpy ((hp y).mpr (by rw [hfy, ha0]))

theorem filter_eq_nil_of_all {α : Type} (p : α → Bool) :
    ∀ l : List α, (∀ x ∈ l, p x = false) → l.filter p = [] := by
  intro l
  induction l with
  | nil => intro h; rfl
  | cons y t ih =>
      intro h
      rw [List.filter_cons, h y (List.mem_cons_self y t)]
      exact ih (fun x hx => h x (List.mem_cons_of_mem y hx))

theorem filter_eq_self_of_all {α : Type} (p : α → Bool) :
    ∀ l : List α, (∀ x ∈ l, p x = true) → l.filter p = l := by
  intro l
  induction l with
  | nil => intro h; rfl
  | cons y t ih =>
      intro h
      rw [List.filter_cons, h y (List.mem_cons_self y t), if_pos rfl]
      rw [ih (fun x hx => h x (List.mem_cons_of_mem y hx))]

theorem foldr_filter_congr {α : Type} (q : String → α → Bool)
    (l1 l2 : List α) :
    ∀ ms : List String, (∀ m ∈ ms, l1.filter (q m) = l2.filter (q m)) →
      ms.foldr (fun m acc => l1.filter (q m) ++ acc) [] =
      ms.foldr (fun m acc => l2.filter (q m) ++ acc) [] := by
  intro ms
  induction ms with
  | nil => intro h; rfl
  | cons m t ih =>
      intro h
      have h1 := h m (List.mem_cons_self m t)
      have h2 := ih (fun m2 hm2 => h m2 (List.mem_cons_of_mem m hm2))
      simp only [List.foldr_cons, h1, h2]

theorem map_congr_mem {α β : Type} (f g : α → β) :
    ∀ l : List α, (∀ x ∈ l, f x = g x) → l.map f = l.map g := by
  intro l
  induction l with
  | nil => intro h; rfl
  | cons y t ih =>
      intro h
      rw [List.map_cons, List.map_cons, h y (List.mem_cons_self y t),
        ih (fun x hx => h x (List.mem_cons_of_mem y hx))]

theorem runs_decomp {α : Type} (keyOf : α → String) :
    ∀ (names : List String), names.Nodup →
      ∀ (l : List α),
      nondecr (l.map (fun x => idxOf? (keyOf x) names)) = true →
      names.foldr (fun n acc => l.filter (fun x => keyOf x == n) ++ acc) [] = l := by
  intro names
  induction names with
  | nil =>
      intro hnd l h
      cases l with
      | nil => rfl
      | cons x t => exact absurd h (by simp [idxOf?, nondecr])
  | cons n rest ih =>
      intro hnd l h
      have hnd2 := List.nodup_cons.mp hnd
      set f : α → Option Nat := fun x => idxOf? (keyOf x) (n :: rest) with hf
      set p : α → Bool := fun x => keyOf x == n with hpdef
      have hfeq : ∀ x, f x = if n == keyOf x then some 0
          else (idxOf? (keyOf x) rest).map (fun k => k + 1) := fun x => rfl
      have hp : ∀ x, p x = true ↔ f x = some 0 := by
        intro x
        constructor
        · intro hx
          have hkeq : keyOf x = n := eq_of_beq hx
          rw [hfeq x, if_pos (by rw [hkeq]; exact beq_iff_eq.mpr rfl)]
        · intro hx
          by_cases hkn : (n == keyOf x) = true
          · exact beq_iff_eq.mpr (eq_of_beq hkn).symm
          · exfalso
            rw [hfeq x, if_neg hkn] at hx
            cases hrest : idxOf? (keyOf x) rest with
            | none => rw [hrest] at hx; exact Option.noConfusion hx
            | some k =>
                rw [hrest] at hx
                injection hx with hk
                exact Nat.succ_ne_zero k hk
      have hsplit : l.takeWhile p ++ l.dropWhile p = l :=
        List.takeWhile_append_dropWhile p l
      have hmapsplit : l.map f = (l.takeWhile p).map f ++ (l.dropWhile p).map f := by
        rw [← List.map_append, hsplit]
      have hdropnd : nondecr ((l.dropWhile p).map f) = true := by
        rw [hmapsplit] at h
        exact nondecr_append_right _ _ h
      have hdropne : ∀ x ∈ l.dropWhile p, f x ≠ some 0 :=
        drop_ne_zero f p hp l h
      have hdropshape : ∀ x ∈ l.dropWhile p,
          f x = Option.map (fun k => k + 1) (idxOf? (keyOf x) rest) := by
        intro x hx
        by_cases hkn : (n == keyOf x) = true
        · exact absurd (by rw [hfeq x, if_pos hkn]) (hdropne x hx)
        · rw [hfeq x, if_neg hkn]
      have hdropmap : (l.dropWhile p).map f =
          ((l.dropWhile p).map (fun x => idxOf? (keyOf x) rest)).map
            (Option.map (fun k => k + 1)) := by
        rw [List.map_map]
        exact map_congr_mem _ _ _ hdropshape
      have hdropnd2 : nondecr ((l.dropWhile p).map
          (fun x => idxOf? (keyOf x) rest)) = true := by
        apply nondecr_unshift
        rw [← hdropmap]
        exact hdropnd
      have hih := ih hnd2.2 (l.dropWhile p) hdropnd2
      have hfiltn : l.filter p = l.takeWhile p := by
        conv_lhs => rw [← hsplit]
        rw [List.filter_append]
        rw [filter_eq_self_of_all p (l.takeWhile p)
          (fun x hx => List.mem_takeWhile_imp hx)]
        rw [filter_eq_nil_of_all p (l.dropWhile p)
          (fun x hx => by
            have := hdropne x hx
            cases hpx : p x with
            | false => rfl
            | true => exact absurd ((hp x).mp hpx) this)]
        rw [List.append_nil]
      have hfiltm : ∀ m ∈ rest, l.filter (fun x => keyOf x == m) =
          (l.dropWhile p).filter (fun x => keyOf x == m) := by
        intro m hm
        conv_lhs => rw [← hsplit]
        rw [List.filter_append]
        rw [filter_eq_nil_of_all _ (l.takeWhile p)
          (fun x hx => by
            have hpx : p x = true := List.mem_takeWhile_imp hx
            have hxn : keyOf x = n := eq_of_beq hpx
            have hmn : m ≠ n := fun he => hnd2.1 (he ▸ hm)
            cases hq : (keyOf x == m) with
            | false => rfl
            | true => exact absurd (hxn.symm.trans (eq_of_beq hq)) (Ne.symm hmn))]
        rw [List.nil_append]
      calc (n :: rest).foldr (fun m acc => l.filter (fun x => keyOf x == m) ++ acc) []
          = l.filter p ++
            rest.foldr (fun m acc => l.filter (fun x => keyOf x == m) ++ acc) [] := rfl
        _ = l.takeWhile p ++
            rest.foldr (fun m acc =>
              (l.dropWhile p).filter (fun x => keyOf x == m) ++ acc) [] := by
              rw [hfiltn, foldr_filter_congr (fun m x => keyOf x == m) l
                (l.dropWhile p) rest hfiltm]
        _ = l.takeWhile p ++ l.dropWhile p := by rw [hih]
        _ = l := hsplit

theorem XmlList_toList_append : ∀ (a b : XmlList),
    (XmlList.append a b).toList = a.toList ++ b.toList
  | .nil, b => rfl
  | .cons x rest, b => by
      rw [XmlList.append, XmlList.toList, XmlList.toList,
        XmlList_toList_append rest b, List.cons_append]

theorem stripL_toList : ∀ (cs : XmlList), (stripL cs).toList = cs.toList.map strip
  | .nil => rfl
  | .cons x rest => by
      rw [stripL, XmlList.toList, XmlList.toList, stripL_toList rest, List.map_cons]

theorem XmlList_toList_inj : ∀ (a b : XmlList), a.toList = b.toList → a = b
  | .nil, .nil, _ => rfl
  | .nil, .cons y t, h => by cases h
  | .cons x s, .nil, h => by cases h
  | .cons x s, .cons y t, h => by
      rw [XmlList.toList, XmlList.toList] at h
      injection h with h1 h2
      rw [h1, XmlList_toList_inj s t h2]

/-- The list-of-lists view of an encoded field fold. -/
theorem foldr_xml_toList {β : Type} (g : β → XmlList) :
    ∀ l : List β,
      (l.foldr (fun b acc => XmlList.append (g b) acc) XmlList.nil).toList =
        l.foldr (fun b acc => (g b).toList ++ acc) []
  | [] => rfl
  | b :: t => by
      rw [List.foldr, List.foldr, XmlList_toList_append, foldr_xml_toList g t]

/-- The serialized children of an instance, flattened to a plain list: for
each wire-order descriptor, the serialization of the field fetched by
name. -/
def wireFoldL (c : ClassName) (flds : PFields) : List Xml :=
  (mdto_ordered_fields c).foldr
    (fun fd acc =>
      (process_dataclass_field (getattr flds fd.name) fd.name).toList ++ acc) []

/-- The children built by `to_xml` are exactly the wire fold (the loop of
the source, extracted from `to_xml_fields`). -/
theorem arrangeFields_fieldChunks (c : ClassName) (flds : PFields) :
    arrangeFields c (fieldChunks flds) =
      (mdto_ordered_fields c).foldr
        (fun fd acc =>
          XmlList.append (process_dataclass_field (getattr flds fd.name) fd.name)
            acc) .nil := by
  rw [arrangeFields]
  induction mdto_ordered_fields c with
  | nil => rfl
  | cons fd rest ih => rw [List.foldr, List.foldr, ih, fieldChunks_lookup]

theorem arrangeFields_toList (c : ClassName) (flds : PFields) :
    (arrangeFields c (fieldChunks flds)).toList = wireFoldL c flds := by
  rw [arrangeFields_fieldChunks, wireFoldL]
  exact foldr_xml_toList
    (fun fd => process_dataclass_field (getattr flds fd.name) fd.name)
    (mdto_ordered_fields c)

/-- Sequence items that are strings or instances serialize exactly as the
scalar branch would serialize each, concatenated. -/
theorem encodeItems_ofList (n : String) :
    ∀ (vs : List PVal), (∀ v ∈ vs, itemFlag v = true) →
      (encodeItems (PList.ofList vs) n).toList =
        vs.foldr (fun v acc => (process_dataclass_field v n).toList ++ acc) []
  | [], _ => rfl
  | v :: t, h => by
      have ht := encodeItems_ofList n t
        (fun w hw => h w (List.mem_cons_of_mem v hw))
      have hv := h v (List.mem_cons_self v t)
      cases v with
      | str s =>
          rw [PList.ofList, encodeItems, XmlList.toList, ht]
          rfl
      | obj c2 f2 =>
          rw [PList.ofList, encodeItems, XmlList.toList, ht]
          rfl
      | none => cases hv
      | int m => cases hv
      | list items => cases hv

/-- Running a parser over a run of same-tag children: each child parses, and
the serializations of the parsed values concatenate to the stripped run. -/
theorem run_mapM (p : Parser) (n : String) :
    ∀ run : List Xml,
      (∀ x ∈ run, ∃ v, runParser p x = .ok v ∧
        (process_dataclass_field v n).toList = [strip x] ∧
        (itemFlag v = true ∨ p = .int)) →
      ∃ vs, run.mapM (runParser p) = .ok vs ∧
        vs.foldr (fun v acc => (process_dataclass_field v n).toList ++ acc) [] =
          run.map strip ∧
        (∀ v ∈ vs, itemFlag v = true ∨ p = .int) ∧
        vs.length = run.length
  | [], _ => ⟨[], rfl, rfl, fun v hv => absurd hv (List.not_mem_nil v), rfl⟩
  | x :: t, h => by
      obtain ⟨v, hrun, henc, hflag⟩ := h x (List.mem_cons_self x t)
      obtain ⟨vs, hmap, hfold, hflags, hlen⟩ :=
        run_mapM p n t (fun y hy => h y (List.mem_cons_of_mem x hy))
      refine ⟨v :: vs, ?_, ?_, ?_, ?_⟩
      · rw [List.mapM_cons, hrun, hmap]
        rfl
      · rw [List.foldr, hfold, henc, List.map_cons]
        rfl
      · intro w hw
        rcases List.mem_cons.mp hw with rfl | hw
        · exact hflag
        · exact hflags w hw
      · rw [List.length_cons, List.length_cons, hlen]

/-- Collapsing a run's parses and serializing the collapsed value restores
the stripped run: an empty run vanishes (`None` is skipped), a singleton
serializes as the scalar, two or more serialize item-wise. -/
theorem collapse_encode (p : Parser) (n : String) (run : List Xml)
    (h : ∀ x ∈ run, ∃ v, runParser p x = .ok v ∧
        (process_dataclass_field v n).toList = [strip x] ∧
        (itemFlag v = true ∨ p = .int))
    (hint : p = .int → run.length ≤ 1) :
    ∃ vs, run.mapM (runParser p) = .ok vs ∧
      (process_dataclass_field (collapse vs) n).toList = run.map strip := by
  obtain ⟨vs, hmap, hfold, hflags, hlen⟩ := run_mapM p n run h
  refine ⟨vs, hmap, ?_⟩
  rcases vs with _ | ⟨a, _ | ⟨b, t⟩⟩
  · have : run = [] := by
      cases run with
      | nil => rfl
      | cons y s => cases hlen
    subst this
    rfl
  · rw [show collapse [a] = a from rfl]
    rw [← hfold, List.foldr, List.foldr, List.append_nil]
  · have hflag : ∀ v ∈ a :: b :: t, itemFlag v = true := by
      intro v hv
      rcases hflags v hv with hf | hp
      · exact hf
      · exfalso
        have h2 := hint hp
        rw [← hlen] at h2
        simp at h2
    rw [show collapse (a :: b :: t) = .list (PList.ofList (a :: b :: t)) from rfl]
    rw [show process_dataclass_field (.list (PList.ofList (a :: b :: t))) n =
        encodeItems (PList.ofList (a :: b :: t)) n from rfl]
    rw [encodeItems_ofList n (a :: b :: t) hflag, hfold]

theorem wire_sub_fields (c : ClassName) :
    (mdto_ordered_fields c).all
      (fun fd => (fieldsOf c).any (fun fd2 => fd2.name == fd.name)) = true := by
  cases c <;> decide

theorem decodeChildren_ok (c : ClassName) :
    ∀ (cs : XmlList) (bkts : List (String × List PVal)),
      (∀ x ∈ cs.toList, ∃ p, (parsersOf c).lookup (stripNs x.tag) = some p ∧
          ∃ v, runParser p x = .ok v) →
      ∃ out, decodeChildren c cs bkts = .ok out
  | .nil, bkts, _ => ⟨bkts, rfl⟩
  | .cons x rest, bkts, h => by
      obtain ⟨p, hlk, v, hrun⟩ :=
        h x (by rw [XmlList.toList]; exact List.mem_cons_self x rest.toList)
      obtain ⟨out, hout⟩ := decodeChildren_ok c rest
        (appendBucket bkts (stripNs x.tag) v)
        (fun y hy => h y (by rw [XmlList.toList]; exact List.mem_cons_of_mem x hy))
      refine ⟨out, ?_⟩
      rw [decodeChildren]
      simp only [hlk, hrun]
      exact hout

theorem lookup_appendBucket_none (t n : String) (v : PVal) :
    ∀ bkts : List (String × List PVal),
      bkts.lookup n = Option.none →
      (appendBucket bkts t v).lookup n = Option.none
  | [], _ => rfl
  | (m, l) :: rest, h => by
      rw [List.lookup] at h
      cases hb : (n == m)
      · rw [hb] at h
        simp only [] at h
        by_cases hm : m = t
        · rw [appendBucket, if_pos hm, List.lookup, hb]
          exact h
        · rw [appendBucket, if_neg hm, List.lookup, hb]
          exact lookup_appendBucket_none t n v rest h
      · rw [hb] at h
        cases h

theorem decodeChildren_none (c : ClassName) (n : String) :
    ∀ (cs : XmlList) (bkts out : List (String × List PVal)),
      decodeChildren c cs bkts = .ok out →
      bkts.lookup n = Option.none → out.lookup n = Option.none
  | .nil, bkts, out, hres, hb => by
      rw [decodeChildren] at hres
      cases hres
      exact hb
  | .cons x rest, bkts, out, hres, hb => by
      rw [decodeChildren] at hres
      cases hlk : (parsersOf c).lookup (stripNs x.tag) with
      | none => simp only [hlk] at hres; cases hres
      | some p =>
          simp only [hlk] at hres
          cases hrun : runParser p x with
          | error e => simp only [hrun] at hres; cases hres
          | ok v =>
              simp only [hrun] at hres
              exact decodeChildren_none c n rest _ out hres
                (lookup_appendBucket_none (stripNs x.tag) n v bkts hb)

theorem foldr_congr_map {β : Type} (F : β → List Xml) (G : β → List Xml) :
    ∀ l : List β, (∀ b ∈ l, F b = (G b).map strip) →
      l.foldr (fun b acc => F b ++ acc) [] =
        (l.foldr (fun b acc => G b ++ acc) []).map strip
  | [], _ => rfl
  | b :: t, h => by
      rw [List.foldr, List.foldr, List.map_append,
        foldr_congr_map F G t (fun b2 hb2 => h b2 (List.mem_cons_of_mem b hb2)),
        h b (List.mem_cons_self b t)]

theorem foldr_over_names {β : Type} (nameOf : β → String) (H : String → List Xml) :
    ∀ l : List β,
      l.foldr (fun b acc => H (nameOf b) ++ acc) [] =
        (l.map nameOf).foldr (fun n acc => H n ++ acc) []
  | [] => rfl
  | b :: t => by
      rw [List.map_cons, List.foldr, List.foldr, foldr_over_names nameOf H t]

/-- Class-level assembly: when every child of an entity element has a
dispatch-table parser that decodes it and re-serializes its value to the
stripped child, and the children are grouped in wire order with at most one
integer-field occurrence, then the whole child list decodes and the
serialization of the constructed instance restores the stripped children. -/
theorem classAssemble (c : ClassName) (cs : XmlList)
    (hwire : wireOK c cs = true)
    (hint : intOK c cs = true)
    (hkids : ∀ x ∈ cs.toList, ∃ p, (parsersOf c).lookup (stripNs x.tag) = some p ∧
        ∃ v, runParser p x = .ok v ∧
          (process_dataclass_field v (stripNs x.tag)).toList = [strip x] ∧
          (itemFlag v = true ∨ p = .int)) :
    ∃ out, decodeChildren c cs (initBuckets c) = .ok out ∧
      wireFoldL c (mkFields c (collapseBuckets out)) = cs.toList.map strip := by
  obtain ⟨out, hdec⟩ := decodeChildren_ok c cs (initBuckets c)
    (fun x hx => by
      obtain ⟨p, hlk, v, hrun, _, _⟩ := hkids x hx
      exact ⟨p, hlk, v, hrun⟩)
  refine ⟨out, hdec, ?_⟩
  set flds := mkFields c (collapseBuckets out) with hflds
  have hPF : ∀ fd ∈ mdto_ordered_fields c,
      (process_dataclass_field (getattr flds fd.name) fd.name).toList =
        (cs.toList.filter (fun x => stripNs x.tag == fd.name)).map strip := by
    intro fd hfd
    have hmem : (fieldsOf c).any (fun fd2 => fd2.name == fd.name) = true := by
      have h2 := wire_sub_fields c
      rw [List.all_eq_true] at h2
      exact h2 fd hfd
    have hga : getattr flds fd.name =
        ((collapseBuckets out).lookup fd.name).getD .none := by
      rw [hflds]
      exact getattr_mkFields c fd.name _ hmem
    cases hlkf : (parsersOf c).lookup fd.name with
    | none =>
        have hrun0 : cs.toList.filter (fun x => stripNs x.tag == fd.name) = [] := by
          apply filter_eq_nil_of_all
          intro x hx
          cases hq : (stripNs x.tag == fd.name)
          · rfl
          · exfalso
            obtain ⟨p, hlk, _⟩ := hkids x hx
            rw [eq_of_beq hq] at hlk
            rw [hlkf] at hlk
            cases hlk
        have hout0 : out.lookup fd.name = Option.none := by
          apply decodeChildren_none c fd.name cs (initBuckets c) out hdec
          rw [initBuckets, lookup_initBuckets fd.name (parsersOf c), hlkf]
          rfl
        rw [hrun0, hga, lookup_collapseBuckets, hout0]
        rfl
    | some p =>
        have hinit : (initBuckets c).lookup fd.name = some [] := by
          rw [initBuckets, lookup_initBuckets fd.name (parsersOf c), hlkf]
          rfl
        obtain ⟨vs, hmap, hout⟩ :=
          decodeChildren_lookup c fd.name p hlkf cs (initBuckets c) out [] hdec hinit
        set run := cs.toList.filter (fun x => stripNs x.tag == fd.name) with hrundef
        have hkrun : ∀ x ∈ run, ∃ v, runParser p x = .ok v ∧
            (process_dataclass_field v fd.name).toList = [strip x] ∧
            (itemFlag v = true ∨ p = .int) := by
          intro x hx
          have hxf : x ∈ cs.toList.filter (fun y => stripNs y.tag == fd.name) := by
            rw [← hrundef]
            exact hx
          have hx2 : x ∈ cs.toList := List.mem_of_mem_filter hxf
          have htag0 := List.of_mem_filter hxf
          have htag : (stripNs x.tag == fd.name) = true := htag0
          obtain ⟨p2, hlk2, v, hrunp, hprc, hflag⟩ := hkids x hx2
          have hp2 : p2 = p := by
            rw [eq_of_beq htag] at hlk2
            rw [hlkf] at hlk2
            injection hlk2 with h2
            exact h2.symm
          subst hp2
          refine ⟨v, hrunp, ?_, hflag⟩
          rw [← eq_of_beq htag]
          exact hprc
        have hlen : p = .int → run.length ≤ 1 := by
          intro hp
          subst hp
          have h2 := hint
          rw [intOK, List.all_eq_true] at h2
          have h3 := h2 (fd.name, .int) (lookup_mem fd.name .int (parsersOf c) hlkf)
          have h4 : decide (cs.toList.countP
              (fun x => stripNs x.tag == fd.name) ≤ 1) = true := h3
          have h5 := of_decide_eq_true h4
          rw [hrundef, ← List.countP_eq_length_filter]
          exact h5
        obtain ⟨vs2, hmap2, henc⟩ := collapse_encode p fd.name run hkrun hlen
        have hvs : vs2 = vs := by
          rw [hmap] at hmap2
          injection hmap2 with h2
          exact h2.symm
        subst hvs
        have hcoll : (((some (([] : List PVal) ++ vs2)).map collapse).getD .none) =
            collapse vs2 := rfl
        rw [hga, lookup_collapseBuckets, hout, hcoll]
        exact henc
  have h1 : wireFoldL c flds =
      ((mdto_ordered_fields c).foldr
        (fun fd acc => cs.toList.filter (fun x => stripNs x.tag == fd.name) ++ acc)
        []).map strip := by
    rw [wireFoldL]
    exact foldr_congr_map _ _ (mdto_ordered_fields c) hPF
  have h2 : (mdto_ordered_fields c).foldr
        (fun fd acc => cs.toList.filter (fun x => stripNs x.tag == fd.name) ++ acc)
        [] = cs.toList := by
    rw [foldr_over_names FieldDesc.name
      (fun n => cs.toList.filter (fun x => stripNs x.tag == n))
      (mdto_ordered_fields c)]
    have hwire2 : nondecr (cs.toList.map
        (fun x => idxOf? (stripNs x.tag) (wireNames c))) = true := hwire
    exact runs_decomp (fun x => stripNs x.tag) (wireNames c) (wireNames_nodup c)
      cs.toList hwire2
  rw [h1, h2]

mutual

/-- Round trip of a single conformant child: the dispatch-table parser
decodes it, and re-serializing the decoded value under the stripped tag
reproduces the namespace-stripped child (integer fields decode to ints,
every other parser yields a string or an instance). -/
theorem parserRT : ∀ (p : Parser) (x : Xml), confP p x = true →
    ∃ v, runParser p x = .ok v ∧
      (process_dataclass_field v (stripNs x.tag)).toList = [strip x] ∧
      (itemFlag v = true ∨ p = .int)
  | .text, .elem t txt cs, h => by
      cases txt with
      | some s =>
          cases cs with
          | nil => exact ⟨.str s, rfl, rfl, Or.inl rfl⟩
          | cons y r => exact Bool.noConfusion h
      | none =>
          cases cs with
          | nil => exact Bool.noConfusion h
          | cons y r => exact Bool.noConfusion h
  | .int, .elem t txt cs, h => by
      cases txt with
      | some s =>
          cases cs with
          | nil =>
              have h2 : pyIntCanon s = true := h
              rw [pyIntCanon] at h2
              cases hq : pyInt? s with
              | none => rw [hq] at h2; cases h2
              | some num =>
                  rw [hq] at h2
                  have hts : toString num = s := eq_of_beq h2
                  refine ⟨.int num, ?_, ?_, Or.inr rfl⟩
                  · show (match pyInt? s with
                      | some n => Except.ok (PVal.int n)
                      | Option.none => Except.error
                          (DecodeErr.valueError
                            ("invalid literal for int() with base 10: " ++ s))) =
                        Except.ok (PVal.int num)
                    rw [hq]
                  · simp only [Xml.tag]
                    rw [show (process_dataclass_field (.int num) (stripNs t)).toList =
                        [.elem (stripNs t) (some (toString num)) .nil] from rfl, hts]
                    rfl
          | cons y r => exact Bool.noConfusion h
      | none =>
          cases cs with
          | nil => exact Bool.noConfusion h
          | cons y r => exact Bool.noConfusion h
  | .identificatie, .elem t txt cs, h => by
      have h2 : confIdent (.elem t txt cs) = true := h
      cases txt with
      | some s => exact Bool.noConfusion h2
      | none =>
          cases cs with
          | nil => exact Bool.noConfusion h2
          | cons k cs2 =>
              cases cs2 with
              | nil => exact Bool.noConfusion h2
              | cons b cs3 =>
                  cases cs3 with
                  | cons z cs4 => exact Bool.noConfusion h2
                  | nil =>
                      have h3 : (confLeaf k "identificatieKenmerk" &&
                          confLeaf b "identificatieBron") = true := h2
                      have h4 := (Bool.and_eq_true _ _).mp h3
                      cases k with
                      | elem tk txtk csk =>
                          cases b with
                          | elem tb txtb csb =>
                              cases txtk with
                              | none => exact Bool.noConfusion h4.1
                              | some sk =>
                                  cases csk with
                                  | cons y r => exact Bool.noConfusion h4.1
                                  | nil =>
                                      cases txtb with
                                      | none => exact Bool.noConfusion h4.2
                                      | some sb =>
                                          cases csb with
                                          | cons y r => exact Bool.noConfusion h4.2
                                          | nil =>
                                              have hk : stripNs tk = "identificatieKenmerk" :=
                                                eq_of_beq h4.1
                                              have hb : stripNs tb = "identificatieBron" :=
                                                eq_of_beq h4.2
                                              refine ⟨.obj .IdentificatieGegevens
                                                (.cons "identificatieKenmerk" (.str sk)
                                                  (.cons "identificatieBron" (.str sb) .nil)),
                                                rfl, ?_, Or.inl rfl⟩
                                              simp only [strip, stripL]
                                              rw [hk, hb]
                                              rfl
  | .verwijzing, .elem t txt cs, h => by
      have h2 : confVerw (.elem t txt cs) = true := h
      cases txt with
      | some s => exact Bool.noConfusion h2
      | none =>
          cases cs with
          | nil => exact Bool.noConfusion h2
          | cons nm cs2 =>
              cases nm with
              | elem tn txtn csn =>
                  cases cs2 with
                  | nil =>
                      have h3 : confLeaf (.elem tn txtn csn) "verwijzingNaam" = true := h2
                      cases txtn with
                      | none => exact Bool.noConfusion h3
                      | some sn =>
                          cases csn with
                          | cons y r => exact Bool.noConfusion h3
                          | nil =>
                              have hn : stripNs tn = "verwijzingNaam" := eq_of_beq h3
                              refine ⟨.obj .VerwijzingGegevens
                                (.cons "verwijzingNaam" (.str sn)
                                  (.cons "verwijzingIdentificatie" .none .nil)),
                                rfl, ?_, Or.inl rfl⟩
                              simp only [strip, stripL]
                              rw [hn]
                              rfl
                  | cons idv cs3 =>
                      cases cs3 with
                      | cons z cs4 => exact Bool.noConfusion h2
                      | nil =>
                          have h3 : ((confLeaf (.elem tn txtn csn) "verwijzingNaam" &&
                              (stripNs idv.tag == "verwijzingIdentificatie")) &&
                              confIdent idv) = true := h2
                          have h4 := (Bool.and_eq_true _ _).mp h3
                          have h5 := (Bool.and_eq_true _ _).mp h4.1
                          cases txtn with
                          | none => exact Bool.noConfusion h5.1
                          | some sn =>
                              cases csn with
                              | cons y r => exact Bool.noConfusion h5.1
                              | nil =>
                                  have hn : stripNs tn = "verwijzingNaam" := eq_of_beq h5.1
                                  cases idv with
                                  | elem ti txti csi =>
                                      have hti : stripNs ti = "verwijzingIdentificatie" :=
                                        eq_of_beq h5.2
                                      have h6 : confIdent (.elem ti txti csi) = true := h4.2
                                      cases txti with
                                      | some si => exact Bool.noConfusion h6
                                      | none =>
                                          cases csi with
                                          | nil => exact Bool.noConfusion h6
                                          | cons k csi2 =>
                                              cases csi2 with
                                              | nil => exact Bool.noConfusion h6
                                              | cons b csi3 =>
                                                  cases csi3 with
                                                  | cons z csi4 => exact Bool.noConfusion h6
                                                  | nil =>
                                                      have h7 : (confLeaf k "identificatieKenmerk" &&
                                                          confLeaf b "identificatieBron") = true := h6
                                                      have h8 := (Bool.and_eq_true _ _).mp h7
                                                      cases k with
                                                      | elem tk txtk csk =>
                                                          cases b with
                                                          | elem tb txtb csb =>
                                                              cases txtk with
                                                              | none => exact Bool.noConfusion h8.1
                                                              | some sk =>
                                                                  cases csk with
                                                                  | cons y r => exact Bool.noConfusion h8.1
                                                                  | nil =>
                                                                      cases txtb with
                                                                      | none => exact Bool.noConfusion h8.2
                                                                      | some sb =>
                                                                          cases csb with
                                                                          | cons y r => exact Bool.noConfusion h8.2
                                                                          | nil =>
                                                                              have hk : stripNs tk = "identificatieKenmerk" :=
                                                                                eq_of_beq h8.1
                                                                              have hb : stripNs tb = "identificatieBron" :=
                                                                                eq_of_beq h8.2
                                                                              refine ⟨.obj .VerwijzingGegevens
                                                                                (.cons "verwijzingNaam" (.str sn)
                                                                                  (.cons "verwijzingIdentificatie"
                                                                                    (.obj .IdentificatieGegevens
                                                                                      (.cons "identificatieKenmerk" (.str sk)
                                                                                        (.cons "identificatieBron" (.str sb) .nil)))
                                                                                    .nil)),
                                                                                rfl, ?_, Or.inl rfl⟩
                                                                              simp only [strip, stripL]
                                                                              rw [hn, hti, hk, hb]
                                                                              rfl
  | .nested c, .elem t txt cs, h => by
      have h2 : (txt.isNone && confChildren c cs && wireOK c cs && intOK c cs) = true := h
      have h3 := (Bool.and_eq_true _ _).mp h2
      have h4 := (Bool.and_eq_true _ _).mp h3.1
      have h5 := (Bool.and_eq_true _ _).mp h4.1
      cases txt with
      | some s => exact Bool.noConfusion h5.1
      | none =>
          have hkids := childrenRT c cs h5.2
          obtain ⟨out, hdec, henc⟩ := classAssemble c cs h4.2 h3.2 hkids
          refine ⟨mkObj c (collapseBuckets out), ?_, ?_, Or.inl rfl⟩
          · rw [runParser]
            simp only [hdec]
          · have hxml : arrangeFields c (fieldChunks (mkFields c (collapseBuckets out))) =
                stripL cs :=
              XmlList_toList_inj _ _
                (by rw [arrangeFields_toList, stripL_toList]; exact henc)
            simp only [Xml.tag]
            rw [show process_dataclass_field (mkObj c (collapseBuckets out)) (stripNs t) =
                XmlList.cons (.elem (stripNs t) Option.none
                  (arrangeFields c (fieldChunks (mkFields c (collapseBuckets out))))) .nil
              from rfl]
            rw [hxml]
            rfl

/-- Round trip of a conformant child list, child by child. -/
theorem childrenRT : ∀ (c : ClassName) (cs : XmlList), confChildren c cs = true →
    ∀ x ∈ cs.toList, ∃ p, (parsersOf c).lookup (stripNs x.tag) = some p ∧
      ∃ v, runParser p x = .ok v ∧
        (process_dataclass_field v (stripNs x.tag)).toList = [strip x] ∧
        (itemFlag v = true ∨ p = .int)
  | c, .nil, h => by
      intro x hx
      rw [XmlList.toList] at hx
      cases hx
  | c, .cons y rest, h => by
      have h2 : ((match (parsersOf c).lookup (stripNs y.tag) with
          | some p => confP p y
          | Option.none => false) && confChildren c rest) = true := h
      have h3 := (Bool.and_eq_true _ _).mp h2
      intro x hx
      rw [XmlList.toList] at hx
      rcases List.mem_cons.mp hx with rfl | hx
      · cases hlk : (parsersOf c).lookup (stripNs x.tag) with
        | none =>
            have h4 := h3.1
            rw [hlk] at h4
            exact Bool.noConfusion h4
        | some p =>
            have h4 := h3.1
            rw [hlk] at h4
            have h5 : confP p x = true := h4
            obtain ⟨v, hrun, hprc, hflag⟩ := parserRT p x h5
            exact ⟨p, rfl, v, hrun, hprc, hflag⟩
      · exact childrenRT c rest h3.2 x hx

end

theorem wire_descs_clean (c : ClassName) :
    (mdto_ordered_fields c).all (fun fd => stripNs fd.name == fd.name) = true := by
  cases c <;> decide

theorem cleanTagsL_append : ∀ (a b : XmlList),
    cleanTagsL (XmlList.append a b) = (cleanTagsL a && cleanTagsL b)
  | .nil, b => by rw [XmlList.append, cleanTagsL, Bool.true_and]
  | .cons x rest, b => by
      rw [XmlList.append, cleanTagsL, cleanTagsL, cleanTagsL_append rest b,
        Bool.and_assoc]

theorem encClean_foldr (P : FieldDesc → XmlList) :
    ∀ descs : List FieldDesc, (∀ fd ∈ descs, cleanTagsL (P fd) = true) →
      cleanTagsL (descs.foldr (fun fd acc => XmlList.append (P fd) acc) .nil) = true
  | [], _ => rfl
  | fd :: t, h => by
      rw [List.foldr, cleanTagsL_append, h fd (List.mem_cons_self fd t),
        encClean_foldr P t (fun fd2 h2 => h fd2 (List.mem_cons_of_mem fd h2))]
      rfl

mutual

/-- Every tag the encoder emits under a namespace-fixed field name is itself
namespace-fixed: the output tree of the serializer only carries plain field
names as tags. -/
theorem encClean_val : ∀ (v : PVal) (name : String),
    (stripNs name == name) = true →
    cleanTagsL (process_dataclass_field v name) = true
  | .none, _, _ => rfl
  | .str s, name, h => by
      have hshape : cleanTagsL (process_dataclass_field (.str s) name) =
          (((stripNs name == name) && true) && true) := rfl
      rw [hshape, h]
      rfl
  | .int n, name, h => by
      have hshape : cleanTagsL (process_dataclass_field (.int n) name) =
          (((stripNs name == name) && true) && true) := rfl
      rw [hshape, h]
      rfl
  | .list items, name, h => by
      rw [show process_dataclass_field (.list items) name = encodeItems items name
        from rfl]
      exact encClean_items items name h
  | .obj c2 f2, name, h => by
      have hfold := encClean_foldr
        (fun fd => ((fieldChunks f2).lookup fd.name).getD .nil)
        (mdto_ordered_fields c2)
        (fun fd hfd => by
          have hcl := wire_descs_clean c2
          rw [List.all_eq_true] at hcl
          exact encClean_lookup f2 fd.name (hcl fd hfd))
      have h2 : cleanTagsL ((mdto_ordered_fields c2).foldr
          (fun fd acc =>
            XmlList.append (((fieldChunks f2).lookup fd.name).getD .nil) acc)
          .nil) = true := hfold
      have hshape : cleanTagsL (process_dataclass_field (.obj c2 f2) name) =
          (((stripNs name == name) &&
            cleanTagsL (arrangeFields c2 (fieldChunks f2))) && true) := rfl
      rw [hshape, h, arrangeFields, h2]
      rfl

/-- Item-wise serialization emits namespace-fixed tags. -/
theorem encClean_items : ∀ (items : PList) (name : String),
    (stripNs name == name) = true →
    cleanTagsL (encodeItems items name) = true
  | .nil, _, _ => rfl
  | .cons (.str s) rest, name, h => by
      have hr := encClean_items rest name h
      rw [encodeItems]
      rw [show cleanTagsL (XmlList.cons (.elem name (some s) XmlList.nil)
          (encodeItems rest name)) =
        (((stripNs name == name) && true) && cleanTagsL (encodeItems rest name))
        from rfl]
      rw [h, hr]
      rfl
  | .cons (.obj c2 f2) rest, name, h => by
      have hr := encClean_items rest name h
      have hfold := encClean_foldr
        (fun fd => ((fieldChunks f2).lookup fd.name).getD .nil)
        (mdto_ordered_fields c2)
        (fun fd hfd => by
          have hcl := wire_descs_clean c2
          rw [List.all_eq_true] at hcl
          exact encClean_lookup f2 fd.name (hcl fd hfd))
      have h2 : cleanTagsL ((mdto_ordered_fields c2).foldr
          (fun fd acc =>
            XmlList.append (((fieldChunks f2).lookup fd.name).getD .nil) acc)
          .nil) = true := hfold
      rw [encodeItems]
      rw [show cleanTagsL (XmlList.cons (.elem name Option.none
          (arrangeFields c2 (fieldChunks f2))) (encodeItems rest name)) =
        (((stripNs name == name) && cleanTagsL (arrangeFields c2 (fieldChunks f2)))
          && cleanTagsL (encodeItems rest name)) from rfl]
      rw [h, hr, arrangeFields, h2]
      rfl
  | .cons .none rest, name, h =>
      encClean_items rest name h
  | .cons (.int n) rest, name, h =>
      encClean_items rest name h
  | .cons (.list l2) rest, name, h =>
      encClean_items rest name h

/-- A field chunk selected under a namespace-fixed name carries only
namespace-fixed tags. -/
theorem encClean_lookup : ∀ (f : PFields) (n : String),
    (stripNs n == n) = true →
    cleanTagsL (((fieldChunks f).lookup n).getD .nil) = true
  | .nil, _, _ => rfl
  | .cons m v rest, n, h => by
      rw [fieldChunks]
      cases hb : (n == m)
      · rw [List.lookup, hb]
        exact encClean_lookup rest n h
      · have hm : n = m := eq_of_beq hb
        subst hm
        rw [List.lookup, hb]
        exact encClean_val v n h

end

/-- The serialized children of an instance carry only namespace-fixed
tags. -/
theorem encClean_arrangeFields (c : ClassName) (f : PFields) :
    cleanTagsL (arrangeFields c (fieldChunks f)) = true := by
  have hfold := encClean_foldr
    (fun fd => ((fieldChunks f).lookup fd.name).getD .nil)
    (mdto_ordered_fields c)
    (fun fd hfd => by
      have hcl := wire_descs_clean c
      rw [List.all_eq_true] at hcl
      exact encClean_lookup f fd.name (hcl fd hfd))
  have h2 : cleanTagsL ((mdto_ordered_fields c).foldr
      (fun fd acc =>
        XmlList.append (((fieldChunks f).lookup fd.name).getD .nil) acc)
      .nil) = true := hfold
  rw [arrangeFields]
  exact h2

mutual

/-- On a tree whose stripped form has only namespace-fixed tags, rendering
the stripped tree gives the same bytes as rendering the original: the
serializer prints namespace-stripped tags anyway. -/
theorem render_strip : ∀ (x : Xml) (lvl : Nat), cleanTags (strip x) = true →
    renderXml lvl (strip x) = renderXml lvl x
  | .elem t txt cs, lvl, h => by
      have h2 : ((stripNs (stripNs t) == stripNs t) && cleanTagsL (stripL cs)) =
          true := h
      have h3 := (Bool.and_eq_true _ _).mp h2
      have ht : stripNs (stripNs t) = stripNs t := eq_of_beq h3.1
      cases cs with
      | nil =>
          cases txt with
          | some s =>
              rw [show strip (Xml.elem t (some s) XmlList.nil) =
                  Xml.elem (stripNs t) (some s) XmlList.nil from rfl]
              rw [renderXml, renderXml, ht]
          | none =>
              rw [show strip (Xml.elem t Option.none XmlList.nil) =
                  Xml.elem (stripNs t) Option.none XmlList.nil from rfl]
              rw [renderXml, renderXml, ht]
      | cons y r =>
          have h4 : (cleanTags (strip y) && cleanTagsL (stripL r)) = true := h3.2
          have h5 := (Bool.and_eq_true _ _).mp h4
          rw [show strip (Xml.elem t txt (XmlList.cons y r)) =
              Xml.elem (stripNs t) txt (XmlList.cons (strip y) (stripL r)) from rfl]
          rw [renderXml, renderXml, ht, render_strip y (lvl + 1) h5.1,
            renderChildren_strip r (lvl + 1) h5.2]

/-- Sibling-list version of `render_strip`. -/
theorem renderChildren_strip : ∀ (cs : XmlList) (lvl : Nat),
    cleanTagsL (stripL cs) = true →
    renderChildren lvl (stripL cs) = renderChildren lvl cs
  | .nil, _, _ => rfl
  | .cons y r, lvl, h => by
      have h2 : (cleanTags (strip y) && cleanTagsL (stripL r)) = true := h
      have h3 := (Bool.and_eq_true _ _).mp h2
      rw [show stripL (XmlList.cons y r) = XmlList.cons (strip y) (stripL r) from rfl]
      rw [renderChildren, renderChildren, render_strip y lvl h3.1,
        renderChildren_strip r lvl h3.2]

end

theorem rootTag_clean (c : ClassName) :
    (stripNs (rootTag c) == rootTag c) = true := by
  cases c <;> decide

/-- A source document as handed to `from_xml`: its XML declaration line and
the single body element under the `<MDTO>` root (canonical MDTO documents
hold exactly one `informatieobject` or `bestand`). -/
structure InputDoc where
  decl : String
  body : Xml

/-- The bytes of a canonical document: declaration, newline, and the
`<MDTO>`-wrapped tab-indented body. -/
def docBytes (d : InputDoc) : String := d.decl ++ "\n" ++ renderMDTO d.body

/-- The tree `ET.parse` hands to the decoding part of `from_xml` for the
document. -/
def docTree (d : InputDoc) : Xml :=
  .elem (mdtoNs ++ "MDTO") Option.none (.cons d.body .nil)

/-- Conformance of a document body: a top-level `informatieobject` or
`bestand` element that is conformant for the corresponding nested parser. -/
def confDoc (body : Xml) : Bool :=
  (stripNs body.tag == "informatieobject" &&
    confP (.nested .Informatieobject) body) ||
  (stripNs body.tag == "bestand" && confP (.nested .Bestand) body)

/-- Top-level round trip of one conformant body element: decoding succeeds
and re-encoding under the root tag renders the same bytes. -/
theorem roundtrip_class (c : ClassName) (body : Xml)
    (htag : stripNs body.tag = rootTag c)
    (hconf : confP (.nested c) body = true) :
    ∃ args, elem_to_mdto c body.children = .ok (mkObj c args) ∧
      renderMDTO (to_xml (mkObj c args) (rootTag c)) = renderMDTO body := by
  cases body with
  | elem t txt cs =>
      have h2 : (txt.isNone && confChildren c cs && wireOK c cs && intOK c cs) =
          true := hconf
      have h3 := (Bool.and_eq_true _ _).mp h2
      have h4 := (Bool.and_eq_true _ _).mp h3.1
      have h5 := (Bool.and_eq_true _ _).mp h4.1
      cases txt with
      | some s => exact Bool.noConfusion h5.1
      | none =>
          have hkids := childrenRT c cs h5.2
          obtain ⟨out, hdec, henc⟩ := classAssemble c cs h4.2 h3.2 hkids
          refine ⟨collapseBuckets out, ?_, ?_⟩
          · show elem_to_mdto c cs = .ok (mkObj c (collapseBuckets out))
            rw [elem_to_mdto]
            simp only [hdec]
          · have hxml : arrangeFields c
                (fieldChunks (mkFields c (collapseBuckets out))) = stripL cs :=
              XmlList_toList_inj _ _
                (by rw [arrangeFields_toList, stripL_toList]; exact henc)
            have htag2 : stripNs t = rootTag c := htag
            have hto : to_xml (mkObj c (collapseBuckets out)) (rootTag c) =
                .elem (rootTag c) Option.none (stripL cs) := by
              rw [show to_xml (mkObj c (collapseBuckets out)) (rootTag c) =
                  .elem (rootTag c) Option.none
                    (arrangeFields c
                      (fieldChunks (mkFields c (collapseBuckets out)))) from rfl,
                hxml]
            have hclean : cleanTags (strip (Xml.elem t Option.none cs)) = true := by
              have hshape : cleanTags (strip (Xml.elem t Option.none cs)) =
                  ((stripNs (stripNs t) == stripNs t) && cleanTagsL (stripL cs)) :=
                rfl
              rw [hshape, htag2]
              have hroot : (stripNs (rootTag c) == rootTag c) = true :=
                rootTag_clean c
              rw [hroot]
              rw [← hxml]
              rw [encClean_arrangeFields c (mkFields c (collapseBuckets out))]
              rfl
            have hmid : renderXml 1 (.elem (rootTag c) Option.none (stripL cs)) =
                renderXml 1 (Xml.elem t Option.none cs) := by
              rw [← htag2]
              rw [show (Xml.elem (stripNs t) Option.none (stripL cs)) =
                  strip (Xml.elem t Option.none cs) from rfl]
              exact render_strip (Xml.elem t Option.none cs) 1 hclean
            rw [renderMDTO, renderMDTO, hto, hmid]

/-- Claim C1, amended: for every conformant document, decoding succeeds and
re-encoding reproduces the document bytes except for the XML declaration
line: `save` always writes lxml's single-quoted declaration, so the output
is byte-identical to the input exactly when the input document already used
the lxml declaration (the canonical MDTO examples use double quotes, which
is why the repository's own round-trip test normalizes the declaration
before comparing). -/
theorem C1_roundtrip (d : InputDoc) (h : confDoc d.body = true) :
    ∃ v, from_xml (docTree d) = .ok v ∧
      saveString v = xmlDeclLxml ++ "\n" ++ renderMDTO d.body ∧
      docBytes d = d.decl ++ "\n" ++ renderMDTO d.body ∧
      (d.decl = xmlDeclLxml → saveString v = docBytes d) := by
  rw [confDoc, Bool.or_eq_true] at h
  rcases h with h | h
  · have h2 := (Bool.and_eq_true _ _).mp h
    have htag : stripNs d.body.tag = "informatieobject" := eq_of_beq h2.1
    obtain ⟨args, hdec, hrender⟩ := roundtrip_class .Informatieobject d.body htag h2.2
    refine ⟨mkObj .Informatieobject args, ?_, ?_, rfl, ?_⟩
    · rw [docTree, from_xml]
      simp only [Xml.children]
      rw [if_pos htag]
      exact hdec
    · rw [show saveString (mkObj .Informatieobject args) =
          xmlDeclLxml ++ "\n" ++
            renderMDTO (to_xml (mkObj .Informatieobject args)
              (rootTag .Informatieobject)) from rfl, hrender]
    · intro hd
      rw [show saveString (mkObj .Informatieobject args) =
          xmlDeclLxml ++ "\n" ++
            renderMDTO (to_xml (mkObj .Informatieobject args)
              (rootTag .Informatieobject)) from rfl, hrender, docBytes, hd]
  · have h2 := (Bool.and_eq_true _ _).mp h
    have htag : stripNs d.body.tag = "bestand" := eq_of_beq h2.1
    obtain ⟨args, hdec, hrender⟩ := roundtrip_class .Bestand d.body htag h2.2
    refine ⟨mkObj .Bestand args, ?_, ?_, rfl, ?_⟩
    · rw [docTree, from_xml]
      simp only [Xml.children]
      have hne : stripNs d.body.tag ≠ "informatieobject" := by
        rw [htag]
        decide
      rw [if_neg hne, if_pos htag]
      exact hdec
    · rw [show saveString (mkObj .Bestand args) =
          xmlDeclLxml ++ "\n" ++
            renderMDTO (to_xml (mkObj .Bestand args) (rootTag .Bestand)) from rfl,
        hrender]
    · intro hd
      rw [show saveString (mkObj .Bestand args) =
          xmlDeclLxml ++ "\n" ++
            renderMDTO (to_xml (mkObj .Bestand args) (rootTag .Bestand)) from rfl,
        hrender, docBytes, hd]

/-- Counterexample to claim C1 as stated: a conformant `bestand` document
that carries the canonical MDTO XML declaration (double-quoted, as every
example document in the repository does) decodes successfully, but
re-encoding is NOT byte-identical to the input: `save` always writes lxml's
single-quoted declaration, so the first line differs (the repository's own
round-trip test works around exactly this by rewriting the declaration
before comparing). -/
theorem C1_counterexample :
    confDoc (Xml.elem (mdtoNs ++ "bestand") Option.none XmlList.nil) = true ∧
    from_xml (docTree
        ⟨xmlDeclMdto, Xml.elem (mdtoNs ++ "bestand") Option.none XmlList.nil⟩) =
      .ok (mkObj .Bestand (collapseBuckets (initBuckets .Bestand))) ∧
    saveString (mkObj .Bestand (collapseBuckets (initBuckets .Bestand))) =
      xmlDeclLxml ++ "\n" ++
        renderMDTO (Xml.elem (mdtoNs ++ "bestand") Option.none XmlList.nil) ∧
    docBytes ⟨xmlDeclMdto, Xml.elem (mdtoNs ++ "bestand") Option.none XmlList.nil⟩ =
      xmlDeclMdto ++ "\n" ++
        renderMDTO (Xml.elem (mdtoNs ++ "bestand") Option.none XmlList.nil) ∧
    saveString (mkObj .Bestand (collapseBuckets (initBuckets .Bestand))) ≠
      docBytes ⟨xmlDeclMdto, Xml.elem (mdtoNs ++ "bestand") Option.none XmlList.nil⟩ :=
  ⟨by decide, rfl, rfl, rfl, by decide⟩

/-- Witness for C1 at a concrete input: a conformant `bestand` document with
a name, a size and a URL, carrying the lxml declaration, round-trips to its
exact bytes. -/
theorem C1_roundtrip_witness :
    ∃ v, from_xml (docTree (InputDoc.mk xmlDeclLxml
        (Xml.elem (mdtoNs ++ "bestand") Option.none
          (.cons (.elem (mdtoNs ++ "naam") (some "Vergunning.pdf") .nil)
            (.cons (.elem (mdtoNs ++ "omvang") (some "2048") .nil)
              (.cons (.elem (mdtoNs ++ "URLBestand")
                (some "https://example.nl/f.pdf") .nil) .nil)))))) = .ok v ∧
      saveString v = xmlDeclLxml ++ "\n" ++
        renderMDTO (Xml.elem (mdtoNs ++ "bestand") Option.none
          (.cons (.elem (mdtoNs ++ "naam") (some "Vergunning.pdf") .nil)
            (.cons (.elem (mdtoNs ++ "omvang") (some "2048") .nil)
              (.cons (.elem (mdtoNs ++ "URLBestand")
                (some "https://example.nl/f.pdf") .nil) .nil)))) ∧
      docBytes (InputDoc.mk xmlDeclLxml
          (Xml.elem (mdtoNs ++ "bestand") Option.none
            (.cons (.elem (mdtoNs ++ "naam") (some "Vergunning.pdf") .nil)
              (.cons (.elem (mdtoNs ++ "omvang") (some "2048") .nil)
                (.cons (.elem (mdtoNs ++ "URLBestand")
                  (some "https://example.nl/f.pdf") .nil) .nil))))) =
        xmlDeclLxml ++ "\n" ++
          renderMDTO (Xml.elem (mdtoNs ++ "bestand") Option.none
            (.cons (.elem (mdtoNs ++ "naam") (some "Vergunning.pdf") .nil)
              (.cons (.elem (mdtoNs ++ "omvang") (some "2048") .nil)
                (.cons (.elem (mdtoNs ++ "URLBestand")
                  (some "https://example.nl/f.pdf") .nil) .nil)))) ∧
      (xmlDeclLxml = xmlDeclLxml →
        saveString v = docBytes (InputDoc.mk xmlDeclLxml
          (Xml.elem (mdtoNs ++ "bestand") Option.none
            (.cons (.elem (mdtoNs ++ "naam") (some "Vergunning.pdf") .nil)
              (.cons (.elem (mdtoNs ++ "omvang") (some "2048") .nil)
                (.cons (.elem (mdtoNs ++ "URLBestand")
                  (some "https://example.nl/f.pdf") .nil) .nil)))))) :=
  C1_roundtrip (InputDoc.mk xmlDeclLxml
    (Xml.elem (mdtoNs ++ "bestand") Option.none
      (.cons (.elem (mdtoNs ++ "naam") (some "Vergunning.pdf") .nil)
        (.cons (.elem (mdtoNs ++ "omvang") (some "2048") .nil)
          (.cons (.elem (mdtoNs ++ "URLBestand")
            (some "https://example.nl/f.pdf") .nil) .nil)))))
    (by decide)
